import Mathlib

/-!
# Verification of the Firestore adapter core

Shallow embedding of the core algorithms of the `ilniqjs-firestore-adapter`
repository, together with theorems settling the specification claims.

Embedded components (each `def` mirrors the named TypeScript source):
* `retryWithBackoff` / `isRetryableError`  — `src/core/utils.ts`
* `chunkArray`                             — `src/core/utils.ts`
* `guardEdgeRuntime`                       — `src/config/connection.factory.ts`
* `ConnectionFactory.initialize`           — `src/config/connection.factory.ts`
* `updateData` / `updateRefs`              — `src/services/crud/SimpleCrudService.ts`
* `BatchService.batchCreate`/`batchUpdate` — `services/batch/BatchService.ts`
* `validateNoCircularReferences`           — `src/core/sanitizer.ts`

JavaScript numbers are modelled as `Nat` (all quantities involved — delays,
counters, timestamps — are non-negative integers in every scenario the spec
discusses); promise-returning operations are modelled as pure functions from
an attempt index / explicit state, with thrown exceptions as `Except` errors
and `setTimeout`-sleeps recorded in an explicit log.
-/

namespace FirestoreAdapter

/-! ## Retry executor (`src/core/utils.ts`) -/

/-- Error value thrown by an underlying operation.  JavaScript errors are
inspected only through their `code` and `status` fields (`isRetryableError`),
so the model keeps exactly those, each possibly absent (`undefined`). -/
structure JsError where
  code : Option String
  status : Option String
  deriving Repr, DecidableEq

/-- `RetryConfig` from `src/core/types`. -/
structure RetryConfig where
  maxRetries : Nat
  initialDelay : Nat
  maxDelay : Nat
  backoffMultiplier : Nat
  deriving Repr, DecidableEq

/-- The retryable whitelist from `isRetryableError` in `src/core/utils.ts`. -/
def retryableCodes : List String :=
  ["UNAVAILABLE", "DEADLINE_EXCEEDED", "RESOURCE_EXHAUSTED", "ABORTED", "INTERNAL"]

/-- `error.code || error.status`: JS `||` falls through on a falsy (absent or
empty) `code`. -/
def effectiveCode (e : JsError) : String :=
  match e.code with
  | some c => if c = "" then e.status.getD "" else c
  | none => e.status.getD ""

/-- `isRetryableError` from `src/core/utils.ts` (the `!error` guard never
fires here because the model always supplies an error value). -/
def isRetryableError (e : JsError) : Bool :=
  retryableCodes.contains (effectiveCode e)

/-- What `retryWithBackoff` ultimately throws. -/
inductive RetryError where
  /-- the original underlying error, rethrown unmodified -/
  | raised (e : JsError)
  /-- `RetryExhaustedError(operationName, attempts, lastError)` -/
  | exhausted (attempts : Nat) (lastError : JsError)
  deriving Repr, DecidableEq

/-- Outcome of `retryWithBackoff`: the returned value or thrown error,
together with the log of sleep durations, in order. -/
structure RetryOutcome (T : Type) where
  result : Except RetryError T
  sleeps : List Nat
  deriving Repr

/-- The `for (let attempt = 0; attempt <= maxRetries; attempt++)` loop of
`retryWithBackoff`, with `remaining = maxRetries - attempt` made structural.
On each failed attempt the source first breaks out when
`attempt === maxRetries` (throwing `RetryExhaustedError` with
`maxRetries + 1` attempts), then rethrows non-retryable errors, and
otherwise sleeps `min(delay, maxDelay)` and multiplies `delay`. -/
def retryAux (op : Nat → Except JsError T) (cfg : RetryConfig) :
    Nat → Nat → Nat → List Nat → RetryOutcome T
  | remaining, attempt, delay, sleeps =>
    match op attempt with
    | .ok v => ⟨.ok v, sleeps⟩
    | .error e =>
      match remaining with
      | 0 => ⟨.error (.exhausted (cfg.maxRetries + 1) e), sleeps⟩
      | r + 1 =>
        if isRetryableError e then
          retryAux op cfg r (attempt + 1) (delay * cfg.backoffMultiplier)
            (sleeps ++ [min delay cfg.maxDelay])
        else ⟨.error (.raised e), sleeps⟩

/-- `retryWithBackoff` from `src/core/utils.ts`.  The operation is modelled
as a function from the attempt index (0-based) to that attempt's outcome. -/
def retryWithBackoff (op : Nat → Except JsError T) (cfg : RetryConfig) :
    RetryOutcome T :=
  retryAux op cfg cfg.maxRetries 0 cfg.initialDelay []

/-! ## `chunkArray` (`src/core/utils.ts`) -/

/-- The `for (let i = 0; i < array.length; i += size)` loop of `chunkArray`,
with the iteration count made structural via `fuel`.  Each step takes
`array.slice(i, i + size)` — i.e. `take size` of the remainder — and advances
by `size`. -/
def chunkArrayGo (size : Nat) : Nat → List α → List (List α)
  | 0, _ => []
  | _, [] => []
  | fuel + 1, l@(_ :: _) => l.take size :: chunkArrayGo size fuel (l.drop size)

/-- `chunkArray` from `src/core/utils.ts`.  `array.length` iterations always
suffice when `size > 0` (the source loop does not terminate for `size = 0`;
every caller passes the positive batch limit 500). -/
def chunkArray (l : List α) (size : Nat) : List (List α) :=
  chunkArrayGo size l.length l

/-! ### Retry lemmas -/

/-- Unfolding lemma for one failing, retryable step of the loop. -/
lemma retryAux_step (op : Nat → Except JsError T) (cfg : RetryConfig)
    (r a d : Nat) (sleeps : List Nat) (e : JsError)
    (hop : op a = .error e) (hr : isRetryableError e = true) :
    retryAux op cfg (r + 1) a d sleeps =
      retryAux op cfg r (a + 1) (d * cfg.backoffMultiplier)
        (sleeps ++ [min d cfg.maxDelay]) := by
  rw [retryAux, hop]
  simp [hr]

/-- Unfolding lemma for the final failing attempt (`attempt === maxRetries`):
the loop breaks and throws `RetryExhaustedError` before looking at
retryability. -/
lemma retryAux_last (op : Nat → Except JsError T) (cfg : RetryConfig)
    (a d : Nat) (sleeps : List Nat) (e : JsError)
    (hop : op a = .error e) :
    retryAux op cfg 0 a d sleeps =
      ⟨.error (.exhausted (cfg.maxRetries + 1) e), sleeps⟩ := by
  rw [retryAux, hop]

/-- If every remaining attempt fails and all but the last are retryable, the
loop sleeps `min (d·m^k, maxDelay)` for `k = 0..r-1` and throws the
retries-exhausted error wrapping the error of the final attempt. -/
lemma retryAux_allFail (op : Nat → Except JsError T) (cfg : RetryConfig)
    (e : Nat → JsError) :
    ∀ r a d sleeps,
      (∀ i, i ≤ r → op (a + i) = .error (e (a + i))) →
      (∀ i, i < r → isRetryableError (e (a + i)) = true) →
      retryAux op cfg r a d sleeps =
        ⟨.error (.exhausted (cfg.maxRetries + 1) (e (a + r))),
          sleeps ++ (List.range r).map
            (fun k => min (d * cfg.backoffMultiplier ^ k) cfg.maxDelay)⟩ := by
  intro r
  induction r with
  | zero =>
    intro a d sleeps hop _
    have h0 := hop 0 (Nat.le_refl 0)
    simp only [Nat.add_zero] at h0 ⊢
    rw [retryAux_last op cfg a d sleeps (e a) h0]
    simp
  | succ r ih =>
    intro a d sleeps hop hret
    have h0 : op (a + 0) = .error (e (a + 0)) := hop 0 (Nat.zero_le _)
    simp only [Nat.add_zero] at h0
    have hr0 : isRetryableError (e a) = true := by
      have := hret 0 (Nat.succ_pos r)
      simpa using this
    rw [retryAux_step op cfg r a d sleeps (e a) h0 hr0]
    have ihi := ih (a + 1) (d * cfg.backoffMultiplier)
      (sleeps ++ [min d cfg.maxDelay])
      (fun i hi => by
        have := hop (i + 1) (Nat.succ_le_succ hi)
        simpa [Nat.add_assoc, Nat.add_comm 1 i] using this)
      (fun i hi => by
        have := hret (i + 1) (Nat.succ_lt_succ hi)
        simpa [Nat.add_assoc, Nat.add_comm 1 i] using this)
    rw [ihi]
    have harg : a + 1 + r = a + (r + 1) := by omega
    have hmap : (List.range (r + 1)).map
          (fun k => min (d * cfg.backoffMultiplier ^ k) cfg.maxDelay) =
        min d cfg.maxDelay :: (List.range r).map
          (fun k => min (d * cfg.backoffMultiplier * cfg.backoffMultiplier ^ k)
            cfg.maxDelay) := by
      rw [List.range_succ_eq_map, List.map_cons, List.map_map]
      congr 1
      · simp
      · apply List.map_congr_left
        intro k _
        simp only [Function.comp_apply]
        congr 1
        rw [pow_succ]
        ring
    rw [harg, hmap]
    simp

/-- **C1.** For every `RetryConfig` and every operation failing on each
attempt with a retryable error, `retryWithBackoff` sleeps exactly
`maxRetries` times — `min (initialDelay·backoffMultiplier^k, maxDelay)` on
the `k`-th sleep — performs `maxRetries + 1` attempts, and throws the
retries-exhausted error wrapping the last underlying error and reporting
`attempts = maxRetries + 1`.  (At the concrete config
`{maxRetries := 3, initialDelay := 100, maxDelay := 5000,
backoffMultiplier := 2}` the sleep sequence evaluates to
`[100, 200, 400]`; see the witness.) -/
theorem retryWithBackoff_retryable_exhausts (op : Nat → Except JsError T)
    (cfg : RetryConfig) (e : Nat → JsError)
    (hop : ∀ k, k ≤ cfg.maxRetries → op k = .error (e k))
    (hret : ∀ k, k ≤ cfg.maxRetries → isRetryableError (e k) = true) :
    retryWithBackoff op cfg =
      ⟨.error (.exhausted (cfg.maxRetries + 1) (e cfg.maxRetries)),
        (List.range cfg.maxRetries).map
          (fun k => min (cfg.initialDelay * cfg.backoffMultiplier ^ k)
            cfg.maxDelay)⟩ := by
  have h := retryAux_allFail op cfg e cfg.maxRetries 0 cfg.initialDelay []
    (fun i hi => by simpa using hop i (by omega))
    (fun i hi => by simpa using hret i (by omega))
  simpa [retryWithBackoff] using h

/-- Witness for C1: the concrete scenario from the spec —
`{maxRetries=3, initialDelay=100, maxDelay=5000, backoffMultiplier=2}` with a
permanently `UNAVAILABLE` operation sleeps `100, 200, 400` (3 sleeps, hence
4 attempts) and reports `attempts = 4`. -/
theorem retryWithBackoff_retryable_exhausts_witness :
    retryWithBackoff (T := Unit) (fun _ => .error ⟨some "UNAVAILABLE", none⟩)
        ⟨3, 100, 5000, 2⟩ =
      ⟨.error (.exhausted 4 ⟨some "UNAVAILABLE", none⟩), [100, 200, 400]⟩ := by
  have hop : ∀ k, k ≤ (3 : Nat) →
      (fun (_ : Nat) => (Except.error ⟨some "UNAVAILABLE", none⟩ :
        Except JsError Unit)) k =
        .error ((fun (_ : Nat) => (⟨some "UNAVAILABLE", none⟩ : JsError)) k) :=
    fun _ _ => rfl
  have hret : ∀ k, k ≤ (3 : Nat) →
      isRetryableError ((fun (_ : Nat) => (⟨some "UNAVAILABLE", none⟩ : JsError)) k)
        = true := by
    intro k _
    show isRetryableError ⟨some "UNAVAILABLE", none⟩ = true
    decide
  have h := retryWithBackoff_retryable_exhausts (T := Unit)
    (fun _ => .error ⟨some "UNAVAILABLE", none⟩) ⟨3, 100, 5000, 2⟩
    (fun _ => ⟨some "UNAVAILABLE", none⟩) hop hret
  simpa using h

/-- Counterexample to C2 as stated: with `maxRetries = 0` the very first
failure — even a non-retryable one (`NOT_FOUND` is not on the whitelist) —
is wrapped in the retries-exhausted error (`attempts = 1`) instead of being
propagated unmodified: the `attempt === maxRetries` break precedes the
retryability check in `retryWithBackoff`. -/
theorem retryWithBackoff_zeroRetries_wraps_counterexample :
    isRetryableError ⟨some "NOT_FOUND", none⟩ = false ∧
    retryWithBackoff (T := Unit) (fun _ => .error ⟨some "NOT_FOUND", none⟩)
        ⟨0, 100, 5000, 2⟩ =
      ⟨.error (.exhausted 1 ⟨some "NOT_FOUND", none⟩), []⟩ := by
  constructor
  · decide
  · rfl

/-- **C2 (amended).** When `maxRetries ≥ 1`, an operation whose first
failure carries a non-retryable error code has that original error
propagated unmodified, with zero sleeps and no retries-exhausted wrapper.
(When `maxRetries = 0` the first failure is instead always wrapped in the
retries-exhausted error with `attempts = 1`, retryable or not — see the
counterexample.) -/
theorem retryWithBackoff_nonretryable_propagates (op : Nat → Except JsError T)
    (cfg : RetryConfig) (e : JsError)
    (hmr : 1 ≤ cfg.maxRetries)
    (hop : op 0 = .error e)
    (hret : isRetryableError e = false) :
    retryWithBackoff op cfg = ⟨.error (.raised e), []⟩ := by
  unfold retryWithBackoff
  obtain ⟨r, hr⟩ : ∃ r, cfg.maxRetries = r + 1 :=
    ⟨cfg.maxRetries - 1, by omega⟩
  rw [hr, retryAux, hop]
  simp [hret]

/-- Witness for C2's amended theorem: `maxRetries = 1`, first failure
`NOT_FOUND` → the original error is rethrown with zero sleeps. -/
theorem retryWithBackoff_nonretryable_propagates_witness :
    retryWithBackoff (T := Unit) (fun _ => .error ⟨some "NOT_FOUND", none⟩)
        ⟨1, 100, 5000, 2⟩ =
      ⟨.error (.raised ⟨some "NOT_FOUND", none⟩), []⟩ :=
  retryWithBackoff_nonretryable_propagates
    (fun _ => .error ⟨some "NOT_FOUND", none⟩) ⟨1, 100, 5000, 2⟩
    ⟨some "NOT_FOUND", none⟩ (by decide) rfl (by decide)

/-! ### `chunkArray` lemmas -/

lemma chunkArrayGo_nil (size f : Nat) : chunkArrayGo size f ([] : List α) = [] := by
  cases f <;> rfl

/-- For a positive chunk size, any fuel of at least `l.length` computes the
same chunk list (each step consumes at least one element). -/
lemma chunkArrayGo_fuel (size : Nat) (hs : 0 < size) :
    ∀ f₁ f₂ (l : List α), l.length ≤ f₁ → l.length ≤ f₂ →
      chunkArrayGo size f₁ l = chunkArrayGo size f₂ l := by
  intro f₁
  induction f₁ with
  | zero =>
    intro f₂ l h₁ _
    have : l = [] := List.length_eq_zero.mp (Nat.le_zero.mp h₁)
    subst this
    simp [chunkArrayGo_nil]
  | succ f₁ ih =>
    intro f₂ l h₁ h₂
    cases l with
    | nil => simp [chunkArrayGo_nil]
    | cons x xs =>
      obtain ⟨f₂', rfl⟩ : ∃ f, f₂ = f + 1 := by
        cases f₂ with
        | zero => simp at h₂
        | succ f => exact ⟨f, rfl⟩
      show (x :: xs).take size :: chunkArrayGo size f₁ ((x :: xs).drop size) =
        (x :: xs).take size :: chunkArrayGo size f₂' ((x :: xs).drop size)
      congr 1
      apply ih
      · simp only [List.length_drop, List.length_cons]
        simp only [List.length_cons] at h₁
        omega
      · simp only [List.length_drop, List.length_cons]
        simp only [List.length_cons] at h₂
        omega

/-- Unfolding equation for `chunkArray` on a non-empty list. -/
lemma chunkArray_cons (x : α) (xs : List α) (size : Nat) (hs : 0 < size) :
    chunkArray (x :: xs) size =
      (x :: xs).take size :: chunkArray ((x :: xs).drop size) size := by
  show chunkArrayGo size (x :: xs).length (x :: xs) = _
  have h1 : chunkArrayGo size (x :: xs).length (x :: xs) =
      (x :: xs).take size :: chunkArrayGo size xs.length ((x :: xs).drop size) := by
    rfl
  rw [h1]
  congr 1
  apply chunkArrayGo_fuel size hs
  · simp only [List.length_drop, List.length_cons]
    omega
  · exact le_rfl

/-- Shared workhorse for the chunking properties: concatenation restores
the list, chunks are bounded by `n`, and all but the last chunk are full. -/
lemma chunkArray_props (l : List α) (n : Nat) (h : 0 < n) :
    (chunkArray l n).flatten = l ∧
    (∀ c ∈ chunkArray l n, c.length ≤ n) ∧
    (∀ c ∈ (chunkArray l n).dropLast, c.length = n) := by
  suffices hmain : ∀ N (l : List α), l.length ≤ N →
      (chunkArray l n).flatten = l ∧
      (∀ c ∈ chunkArray l n, c.length ≤ n) ∧
      (∀ c ∈ (chunkArray l n).dropLast, c.length = n) from
    hmain l.length l le_rfl
  intro N
  induction N with
  | zero =>
    intro l hl
    have : l = [] := List.length_eq_zero.mp (Nat.le_zero.mp hl)
    subst this
    refine ⟨rfl, ?_, ?_⟩ <;> simp [chunkArray, chunkArrayGo_nil]
  | succ N ih =>
    intro l hl
    cases l with
    | nil =>
      refine ⟨rfl, ?_, ?_⟩ <;> simp [chunkArray, chunkArrayGo_nil]
    | cons x xs =>
      rw [chunkArray_cons x xs n h]
      have hdrop : ((x :: xs).drop n).length ≤ N := by
        simp only [List.length_drop, List.length_cons]
        simp only [List.length_cons] at hl
        omega
      obtain ⟨j1, j2, j3⟩ := ih ((x :: xs).drop n) hdrop
      refine ⟨?_, ?_, ?_⟩
      · rw [List.flatten_cons, j1]
        exact List.take_append_drop n (x :: xs)
      · intro c hc
        rcases List.mem_cons.mp hc with rfl | hc'
        · simp only [List.length_take]
          exact min_le_left _ _
        · exact j2 c hc'
      · intro c hc
        cases hrest : chunkArray ((x :: xs).drop n) n with
        | nil =>
          rw [hrest] at hc
          simp at hc
        | cons c₀ cs =>
          rw [hrest, List.dropLast_cons₂] at hc
          rcases List.mem_cons.mp hc with rfl | hc'
          · have hne : (x :: xs).drop n ≠ [] := by
              intro hnil
              rw [hnil] at hrest
              simp [chunkArray, chunkArrayGo_nil] at hrest
            have hlen : n < (x :: xs).length := by
              by_contra hle
              push_neg at hle
              exact hne (List.drop_eq_nil_of_le hle)
            simp only [List.length_take]
            omega
          · rw [hrest] at j3
            exact j3 c hc'

/-- **C10.** For every list and every chunk size `n > 0`, the chunks of
`chunkArray` concatenate back to the original list, every chunk has length
at most `n`, and every chunk except possibly the last has length exactly
`n` — so the batch services' chunking loses no item and never exceeds the
500-operation batch limit. -/
theorem chunkArray_partitions (l : List α) (n : Nat) (h : 0 < n) :
    (chunkArray l n).flatten = l ∧
    (∀ c ∈ chunkArray l n, c.length ≤ n) ∧
    (∀ c ∈ (chunkArray l n).dropLast, c.length = n) :=
  chunkArray_props l n h

/-- Witness for C10 at a concrete input: chunking seven elements by three
gives `[[0,1,2],[3,4,5],[6]]`, whose properties instantiate the theorem. -/
theorem chunkArray_partitions_witness :
    (chunkArray [0, 1, 2, 3, 4, 5, 6] 3).flatten = [0, 1, 2, 3, 4, 5, 6] ∧
    (∀ c ∈ chunkArray [0, 1, 2, 3, 4, 5, 6] 3, c.length ≤ 3) ∧
    (∀ c ∈ (chunkArray [0, 1, 2, 3, 4, 5, 6] 3).dropLast, c.length = 3) :=
  chunkArray_partitions [0, 1, 2, 3, 4, 5, 6] 3 (by decide)

/-! ## Edge-runtime guard (`src/config/connection.factory.ts`) -/

/-- Possible outcomes of evaluating
`typeof (globalThis as any).EdgeRuntime !== "undefined"` in the host
environment: the marker global is confirmed present, confirmed absent, or
reading it throws. -/
inductive GlobalProbe where
  | present
  | absent
  | throws
  deriving Repr, DecidableEq

/-- Errors that can escape the `try` body of `guardEdgeRuntime`. -/
inductive GuardThrow where
  /-- `new EdgeRuntimeError()` (`src/core/errors.ts`, code
  `EDGE_RUNTIME_ERROR`) -/
  | edgeRuntime
  /-- the global-variable read itself threw -/
  | accessError
  deriving Repr, DecidableEq

/-- The `try` body of `ConnectionFactory.guardEdgeRuntime`: throw
`EdgeRuntimeError` when the marker global is confirmed present; succeed when
absent; and reading the global may itself throw. -/
def guardBody : GlobalProbe → Except GuardThrow Unit
  | .present => .error .edgeRuntime
  | .absent => .ok ()
  | .throws => .error .accessError

/-- `ConnectionFactory.guardEdgeRuntime`: the `try` body wrapped in the bare
`catch { }` of the source, which swallows every error that reaches it. -/
def guardEdgeRuntime (env : GlobalProbe) : Except GuardThrow Unit :=
  match guardBody env with
  | .ok _ => .ok ()
  | .error _ => .ok ()

/-- The private constructor of `ConnectionFactory` runs only
`guardEdgeRuntime`; construction fails exactly when the guard throws. -/
def constructConnectionFactory (env : GlobalProbe) : Except GuardThrow Unit :=
  guardEdgeRuntime env

/-- **C3 (code evaluated at the failing input).** When the environment
marker is confirmed present the guard's `try` body does throw the
distinguished `EdgeRuntimeError`, but the surrounding bare `catch` swallows
it, so constructing the `ConnectionFactory` succeeds — contradicting both
the claim and the source's own comment that the goal is to *fail fast* when
`EdgeRuntime` is actually present.  (The unreadable-global half of the claim
does hold: probing `.throws` also constructs successfully.) -/
theorem constructConnectionFactory_present_succeeds :
    guardBody .present = .error .edgeRuntime ∧
    constructConnectionFactory .present = .ok () ∧
    constructConnectionFactory .throws = .ok () := by
  refine ⟨rfl, rfl, rfl⟩

/-! ## Connection lifecycle (`src/config/connection.factory.ts`) -/

/-- `ConnectionMetrics` from `src/core/types`.  Timestamps are epoch
numbers. -/
structure ConnectionMetrics where
  isConnected : Bool
  lastActivity : Nat
  idleTime : Nat
  operationCount : Nat
  deriving Repr, DecidableEq

/-- Mutable state of one `ConnectionFactory`.  The Firestore handle `db` is
identified by an opaque numeric identity so that reference identity of the
returned handle is expressible. -/
structure FactoryState where
  db : Option Nat
  metrics : ConnectionMetrics
  idleMonitorRunning : Bool
  enablePooling : Bool
  deriving Repr, DecidableEq

/-- `ConnectionFactory.updateActivity`: refresh `lastActivity`, increment
`operationCount`. -/
def updateActivity (now : Nat) (m : ConnectionMetrics) : ConnectionMetrics :=
  { m with lastActivity := now, operationCount := m.operationCount + 1 }

/-- `ConnectionFactory.startIdleMonitoring`: a no-op when the interval timer
already exists, otherwise starts it. -/
def startIdleMonitoring (st : FactoryState) : FactoryState :=
  if st.idleMonitorRunning then st else { st with idleMonitorRunning := true }

/-- The non-connected branch of `ConnectionFactory.initialize`: obtain a
handle (`admin.firestore(app)`; modelled by the caller-supplied fresh handle
identity), set `isConnected := true` and `lastActivity := now` — the source
touches no other metric field — and start the idle monitor only when pooling
is enabled.  Returns the new state and the returned handle. -/
def initConnFresh (now fresh : Nat) (st : FactoryState) :
    FactoryState × Nat :=
  let st₁ := { st with
    db := some fresh,
    metrics := { st.metrics with isConnected := true, lastActivity := now } }
  let st₂ := if st₁.enablePooling then startIdleMonitoring st₁ else st₁
  (st₂, fresh)

/-- `ConnectionFactory.initialize` (success path): if `this.db` is set and
`this.metrics.isConnected`, update the activity metrics and return the
existing handle; otherwise run the fresh-initialization branch. -/
def initConn (now fresh : Nat) (st : FactoryState) : FactoryState × Nat :=
  match st.db with
  | some h =>
    if st.metrics.isConnected then
      ({ st with metrics := updateActivity now st.metrics }, h)
    else initConnFresh now fresh st
  | none => initConnFresh now fresh st

/-- Counterexample to C4 as stated: from an idle-flagged state with
`operationCount = 5`, a successful fresh `initialize()` leaves
`operationCount` at `5` — it is *not* reset to zero (no statement in the
source's success path touches `operationCount`). -/
theorem initConn_no_opCount_reset_counterexample :
    (FactoryState.mk (some 7) ⟨false, 0, 0, 5⟩ false true).metrics.isConnected
        = false ∧
    ((initConn 100 8 (FactoryState.mk (some 7) ⟨false, 0, 0, 5⟩ false true)).1
        |>.metrics.operationCount) = 5 := by
  refine ⟨rfl, rfl⟩

/-- **C4 (amended).** After every successful fresh `initialize()` (state not
already connected) the metrics satisfy `isConnected = true` and
`lastActivity = now`, and the idle monitor is started if and only if pooling
is enabled (when it was not already running) — but `operationCount` is left
unchanged, not reset to zero. -/
theorem initConn_fresh_metrics (st : FactoryState) (now fresh : Nat)
    (h : st.metrics.isConnected = false) :
    ((initConn now fresh st).1.metrics.isConnected = true) ∧
    ((initConn now fresh st).1.metrics.lastActivity = now) ∧
    ((initConn now fresh st).1.metrics.operationCount
        = st.metrics.operationCount) ∧
    (st.idleMonitorRunning = false →
      (initConn now fresh st).1.idleMonitorRunning = st.enablePooling) := by
  have hfresh : initConn now fresh st = initConnFresh now fresh st := by
    unfold initConn
    cases hdb : st.db with
    | none => rfl
    | some hh => simp [h]
  rw [hfresh]
  unfold initConnFresh startIdleMonitoring
  cases hp : st.enablePooling <;> cases hm : st.idleMonitorRunning <;>
    simp [hp, hm]

/-- Witness for C4's amended theorem at a concrete disconnected state with
pooling enabled. -/
theorem initConn_fresh_metrics_witness :
    (FactoryState.mk none ⟨false, 3, 0, 9⟩ false true).metrics.isConnected
        = false ∧
    ((initConn 42 1 (FactoryState.mk none ⟨false, 3, 0, 9⟩ false true)).1
        |>.metrics.isConnected) = true ∧
    ((initConn 42 1 (FactoryState.mk none ⟨false, 3, 0, 9⟩ false true)).1
        |>.metrics.lastActivity) = 42 ∧
    ((initConn 42 1 (FactoryState.mk none ⟨false, 3, 0, 9⟩ false true)).1
        |>.metrics.operationCount) = 9 ∧
    ((initConn 42 1 (FactoryState.mk none ⟨false, 3, 0, 9⟩ false true)).1
        |>.idleMonitorRunning) = true := by
  have h := initConn_fresh_metrics
    (FactoryState.mk none ⟨false, 3, 0, 9⟩ false true) 42 1 rfl
  exact ⟨rfl, h.1, h.2.1, h.2.2.1, h.2.2.2 rfl⟩

/-- After any successful `initialize()`, the state is connected and caches
exactly the handle that was returned. -/
lemma initConn_connects (now fresh : Nat) (st : FactoryState) :
    (initConn now fresh st).1.metrics.isConnected = true ∧
    (initConn now fresh st).1.db = some (initConn now fresh st).2 := by
  unfold initConn initConnFresh startIdleMonitoring
  cases hdb : st.db with
  | none => cases hp : st.enablePooling <;> cases hm : st.idleMonitorRunning <;>
      simp [hp, hm]
  | some h =>
    cases hc : st.metrics.isConnected
    · cases hp : st.enablePooling <;> cases hm : st.idleMonitorRunning <;>
        simp [hp, hm]
    · simp [updateActivity, hc]

/-- When already connected with a cached handle, `initialize()` only
updates the activity metrics and returns that handle. -/
lemma initConn_connected (now fresh : Nat) (st : FactoryState) (h : Nat)
    (hdb : st.db = some h) (hc : st.metrics.isConnected = true) :
    initConn now fresh st =
      ({ st with metrics := updateActivity now st.metrics }, h) := by
  unfold initConn
  rw [hdb]
  simp [hc]

/-- **C5.** `initialize()` is idempotent with respect to the connection:
whatever the starting state, a second `initialize()` call after a first one
installs no new underlying connection (the cached handle is unchanged, the
second fresh-handle identity is ignored), returns a handle
reference-identical to the first call's, and increases `operationCount` by
exactly one — hence at most one — per logical call. -/
theorem initConn_idempotent (st : FactoryState) (now₁ now₂ f₁ f₂ : Nat) :
    (initConn now₂ f₂ (initConn now₁ f₁ st).1).2
        = (initConn now₁ f₁ st).2 ∧
    (initConn now₂ f₂ (initConn now₁ f₁ st).1).1.db
        = (initConn now₁ f₁ st).1.db ∧
    (initConn now₂ f₂ (initConn now₁ f₁ st).1).1.metrics.operationCount
        = (initConn now₁ f₁ st).1.metrics.operationCount + 1 := by
  obtain ⟨hconn, hdb⟩ := initConn_connects now₁ f₁ st
  have h2 : initConn now₂ f₂ (initConn now₁ f₁ st).1 =
      ({ (initConn now₁ f₁ st).1 with
          metrics := updateActivity now₂ (initConn now₁ f₁ st).1.metrics },
        (initConn now₁ f₁ st).2) :=
    initConn_connected now₂ f₂ (initConn now₁ f₁ st).1
      (initConn now₁ f₁ st).2 hdb hconn
  rw [h2]
  exact ⟨rfl, rfl, rfl⟩

/-! ## Document values and field-path updates
(`src/services/crud/SimpleCrudService.ts`) -/

/-- A Firestore document value: an opaque scalar, the
`FieldValue.serverTimestamp()` sentinel, or a nested map (association list
of fields, first occurrence wins on lookup). -/
inductive FVal where
  | prim (s : String)
  | timestampSentinel
  | obj (fields : List (String × FVal))
  deriving Repr

/-- Field lookup in a map value. -/
def getField (fields : List (String × FVal)) (k : String) : Option FVal :=
  match fields with
  | [] => none
  | (k', v) :: rest => if k' = k then some v else getField rest k

/-- Field write in a map value: replace the first binding of `k`, or append
a new one. -/
def setField : List (String × FVal) → String → FVal → List (String × FVal)
  | [], k, v => [(k, v)]
  | (k', v') :: rest, k, v =>
    if k' = k then (k, v) :: rest else (k', v') :: setField rest k v

/-- Reading a document at a field path. -/
def getPath : FVal → List String → Option FVal
  | d, [] => some d
  | d, k :: p =>
    match d with
    | .obj fields => (getField fields k).bind (fun c => getPath c p)
    | _ => none

/-- The underlying client's field-path-addressable `update` write (spec §6):
writing at a dotted path touches only the addressed nested field, creating
(or replacing a non-map value by) intermediate maps as needed. -/
def setPath : FVal → List String → FVal → FVal
  | _, [], v => v
  | d, k :: p, v =>
    match d with
    | .obj fields =>
      let child := (getField fields k).getD (.obj [])
      .obj (setField fields k (setPath child p v))
    | _ => .obj (setField [] k (setPath (.obj []) p v))

/-- One `ref.update({...})` call: the update object's dotted keys are
applied as field-path writes, in key order. -/
def applyUpdate (d : FVal) (ws : List (List String × FVal)) : FVal :=
  ws.foldl (fun acc w => setPath acc w.1 w.2) d

/-- Error thrown by the pre-update existence check. -/
inductive CrudError where
  | documentNotFound (id : String)
  deriving Repr, DecidableEq

/-- A collection's store: document id ↦ document. -/
abbrev Store := List (String × FVal)

/-- The update object built by `RelationalCrudService.updateData`: one
dotted-path write `data.<key>` per entry of `updates`, plus `updatedAt`. -/
def dataWrites (updates : List (String × FVal)) : List (List String × FVal) :=
  updates.map (fun kv => (["data", kv.1], kv.2)) ++
    [(["updatedAt"], FVal.timestampSentinel)]

/-- The update object built by `RelationalCrudService.updateRefs`: one
dotted-path write `refs.<key>` per entry (values are string ids), plus
`updatedAt`. -/
def refsWrites (refs : List (String × String)) : List (List String × FVal) :=
  refs.map (fun kv => (["refs", kv.1], FVal.prim kv.2)) ++
    [(["updatedAt"], FVal.timestampSentinel)]

/-- `RelationalCrudService.updateData`: check existence (else
`DocumentNotFoundError`), then issue one `update` with the dotted
`data.<key>` paths and `updatedAt`. -/
def updateDataOp (store : Store) (id : String)
    (updates : List (String × FVal)) : Except CrudError Store :=
  match getField store id with
  | none => .error (.documentNotFound id)
  | some d => .ok (setField store id (applyUpdate d (dataWrites updates)))

/-- `RelationalCrudService.updateRefs`: check existence, then issue one
`update` with the dotted `refs.<key>` paths and `updatedAt`. -/
def updateRefsOp (store : Store) (id : String)
    (refs : List (String × String)) : Except CrudError Store :=
  match getField store id with
  | none => .error (.documentNotFound id)
  | some d => .ok (setField store id (applyUpdate d (refsWrites refs)))

/-- Reading a path of a given document of the store. -/
def getPathInStore (store : Store) (id : String) (p : List String) :
    Option FVal :=
  match getField store id with
  | some d => getPath d p
  | none => none

/-! ### Field-path frame lemmas -/

lemma getField_setField (fields : List (String × FVal)) (k k' : String)
    (v : FVal) :
    getField (setField fields k v) k' =
      if k = k' then some v else getField fields k' := by
  induction fields with
  | nil =>
    by_cases h : k = k' <;> simp [setField, getField, h]
  | cons kv rest ih =>
    obtain ⟨k₀, v₀⟩ := kv
    by_cases h0 : k₀ = k
    · subst h0
      by_cases h : k₀ = k' <;> simp [setField, getField, h]
    · have hsym : ¬ k = k₀ := fun hh => h0 hh.symm
      by_cases h : k₀ = k'
      · subst h
        simp [setField, getField, h0, hsym]
      · simp [setField, getField, h0, h, ih]

lemma getField_setField_self (fields : List (String × FVal)) (k : String)
    (v : FVal) : getField (setField fields k v) k = some v := by
  rw [getField_setField]
  simp

lemma getField_setField_ne (fields : List (String × FVal)) (k k' : String)
    (v : FVal) (h : k ≠ k') :
    getField (setField fields k v) k' = getField fields k' := by
  rw [getField_setField]
  simp [h]

lemma getPath_obj_cons (fields : List (String × FVal)) (x : String)
    (p : List String) :
    getPath (.obj fields) (x :: p) =
      (getField fields x).bind (fun c => getPath c p) := rfl

/-- A path write whose head differs from the head of the read path leaves
the read unchanged. -/
lemma getPath_setPath_headFrame (d v : FVal) (k r : String)
    (p q : List String) (h : k ≠ r) :
    getPath (setPath d (k :: p) v) (r :: q) = getPath d (r :: q) := by
  cases d with
  | obj fields =>
    show getPath (.obj (setField fields k _)) (r :: q) = _
    rw [getPath_obj_cons, getField_setField_ne _ _ _ _ h, ← getPath_obj_cons]
  | prim s =>
    show getPath (.obj (setField [] k _)) (r :: q) = _
    rw [getPath_obj_cons, getField_setField_ne _ _ _ _ h]
    rfl
  | timestampSentinel =>
    show getPath (.obj (setField [] k _)) (r :: q) = _
    rw [getPath_obj_cons, getField_setField_ne _ _ _ _ h]
    rfl

/-- A depth-two path write leaves sibling leaves of the same nested map
unchanged. -/
lemma getPath_setPath_sibFrame (d v : FVal) (a k k' : String)
    (h : k ≠ k') :
    getPath (setPath d [a, k] v) [a, k'] = getPath d [a, k'] := by
  cases d with
  | obj fields =>
    cases hc : getField fields a with
    | some c =>
      have hset : setPath (.obj fields) [a, k] v =
          .obj (setField fields a (setPath c [k] v)) := by
        simp [setPath, hc]
      rw [hset, getPath_obj_cons, getField_setField_self,
        getPath_obj_cons, hc]
      show getPath (setPath c [k] v) [k'] = getPath c [k']
      exact getPath_setPath_headFrame c v k k' [] [] h
    | none =>
      have hset : setPath (.obj fields) [a, k] v =
          .obj (setField fields a (setPath (.obj []) [k] v)) := by
        simp [setPath, hc]
      rw [hset, getPath_obj_cons, getField_setField_self,
        getPath_obj_cons, hc]
      show getPath (setPath (.obj []) [k] v) [k'] = none
      rw [getPath_setPath_headFrame (.obj []) v k k' [] [] h]
      rfl
  | prim s =>
    show getPath (.obj (setField [] a (setPath (.obj []) [k] v))) [a, k'] = _
    rw [getPath_obj_cons, getField_setField_self]
    show getPath (setPath (.obj []) [k] v) [k'] = none
    rw [getPath_setPath_headFrame (.obj []) v k k' [] [] h]
    rfl
  | timestampSentinel =>
    show getPath (.obj (setField [] a (setPath (.obj []) [k] v))) [a, k'] = _
    rw [getPath_obj_cons, getField_setField_self]
    show getPath (setPath (.obj []) [k] v) [k'] = none
    rw [getPath_setPath_headFrame (.obj []) v k k' [] [] h]
    rfl

/-- Writing a root field makes it readable. -/
lemma getPath_setPath_root (d v : FVal) (k : String) :
    getPath (setPath d [k] v) [k] = some v := by
  cases d with
  | obj fields =>
    show getPath (.obj (setField fields k v)) [k] = some v
    rw [getPath_obj_cons, getField_setField_self]
    rfl
  | prim s =>
    show getPath (.obj (setField [] k v)) [k] = some v
    rw [getPath_obj_cons, getField_setField_self]
    rfl
  | timestampSentinel =>
    show getPath (.obj (setField [] k v)) [k] = some v
    rw [getPath_obj_cons, getField_setField_self]
    rfl

/-- Frame over a whole update object, for a read path whose head differs
from every write's head. -/
lemma applyUpdate_headFrame (ws : List (List String × FVal)) :
    ∀ (d : FVal) (r : String) (q : List String),
      (∀ w ∈ ws, ∃ k p, w.1 = k :: p ∧ k ≠ r) →
      getPath (applyUpdate d ws) (r :: q) = getPath d (r :: q) := by
  induction ws with
  | nil => intro d r q _; rfl
  | cons w ws ih =>
    intro d r q hw
    obtain ⟨k, p, hw1, hkr⟩ := hw w (List.mem_cons_self w ws)
    show getPath (applyUpdate (setPath d w.1 w.2) ws) (r :: q) = _
    rw [ih (setPath d w.1 w.2) r q
      (fun w' hw' => hw w' (List.mem_cons_of_mem w hw')), hw1,
      getPath_setPath_headFrame d w.2 k r p q hkr]

/-- Frame over a whole update object, for a depth-two read `[a, k']` when
every write is either at a sibling `[a, k]` (`k ≠ k'`) or under a different
root head. -/
lemma applyUpdate_sibFrame (ws : List (List String × FVal)) :
    ∀ (d : FVal) (a k' : String),
      (∀ w ∈ ws, (∃ k, w.1 = [a, k] ∧ k ≠ k') ∨
        (∃ k p, w.1 = k :: p ∧ k ≠ a)) →
      getPath (applyUpdate d ws) [a, k'] = getPath d [a, k'] := by
  induction ws with
  | nil => intro d a k' _; rfl
  | cons w ws ih =>
    intro d a k' hw
    show getPath (applyUpdate (setPath d w.1 w.2) ws) [a, k'] = _
    rw [ih (setPath d w.1 w.2) a k'
      (fun w' hw' => hw w' (List.mem_cons_of_mem w hw'))]
    rcases hw w (List.mem_cons_self w ws) with ⟨k, hw1, hkk⟩ | ⟨k, p, hw1, hka⟩
    · rw [hw1, getPath_setPath_sibFrame d w.2 a k k' hkk]
    · rw [hw1, getPath_setPath_headFrame d w.2 k a p [k'] hka]

/-- The final `updatedAt` write of an update object is readable in the
result. -/
lemma applyUpdate_last_root (ws : List (List String × FVal)) (d v : FVal)
    (k : String) :
    getPath (applyUpdate d (ws ++ [([k], v)])) [k] = some v := by
  show getPath ((ws ++ [([k], v)]).foldl (fun acc w => setPath acc w.1 w.2) d)
      [k] = some v
  rw [List.foldl_append]
  exact getPath_setPath_root _ v k

/-- **C8.** For every existing relational document: `updateData` writes only
the dotted paths `data.<key>` named in the update plus `updatedAt` — the
entire `refs` object and every sibling key of `data` not named are left
unchanged — and symmetrically `updateRefs` writes only `refs.<key>` plus
`updatedAt`, leaving the entire `data` object and unnamed `refs` siblings
unchanged. -/
theorem updateData_updateRefs_frame (store : Store) (id : String)
    (us : List (String × FVal)) (rs : List (String × String)) (d : FVal)
    (hdoc : getField store id = some d) :
    (∃ st', updateDataOp store id us = .ok st' ∧
      getPathInStore st' id ["refs"] = getPathInStore store id ["refs"] ∧
      (∀ k', k' ∉ us.map Prod.fst →
        getPathInStore st' id ["data", k'] =
          getPathInStore store id ["data", k']) ∧
      getPathInStore st' id ["updatedAt"] = some .timestampSentinel) ∧
    (∃ st', updateRefsOp store id rs = .ok st' ∧
      getPathInStore st' id ["data"] = getPathInStore store id ["data"] ∧
      (∀ k', k' ∉ rs.map Prod.fst →
        getPathInStore st' id ["refs", k'] =
          getPathInStore store id ["refs", k']) ∧
      getPathInStore st' id ["updatedAt"] = some .timestampSentinel) := by
  have hget : ∀ (d' : FVal) (p : List String),
      getPathInStore (setField store id d') id p = getPath d' p := by
    intro d' p
    unfold getPathInStore
    rw [getField_setField, if_pos rfl]
  have hbase : ∀ p, getPathInStore store id p = getPath d p := by
    intro p
    unfold getPathInStore
    rw [hdoc]
  constructor
  · refine ⟨setField store id (applyUpdate d (dataWrites us)), ?_, ?_, ?_, ?_⟩
    · unfold updateDataOp
      rw [hdoc]
    · rw [hget, hbase]
      apply applyUpdate_headFrame
      intro w hw
      unfold dataWrites at hw
      rcases List.mem_append.mp hw with hw | hw
      · obtain ⟨kv, _, rfl⟩ := List.mem_map.mp hw
        exact ⟨"data", [kv.1], rfl, by decide⟩
      · simp only [List.mem_singleton] at hw
        subst hw
        exact ⟨"updatedAt", [], rfl, by decide⟩
    · intro k' hk'
      rw [hget, hbase]
      apply applyUpdate_sibFrame
      intro w hw
      unfold dataWrites at hw
      rcases List.mem_append.mp hw with hw | hw
      · obtain ⟨kv, hkv, rfl⟩ := List.mem_map.mp hw
        refine Or.inl ⟨kv.1, rfl, ?_⟩
        intro hkk
        exact hk' (hkk ▸ List.mem_map.mpr ⟨kv, hkv, rfl⟩)
      · simp only [List.mem_singleton] at hw
        subst hw
        exact Or.inr ⟨"updatedAt", [], rfl, by decide⟩
    · rw [hget]
      exact applyUpdate_last_root _ d .timestampSentinel "updatedAt"
  · refine ⟨setField store id (applyUpdate d (refsWrites rs)), ?_, ?_, ?_, ?_⟩
    · unfold updateRefsOp
      rw [hdoc]
    · rw [hget, hbase]
      apply applyUpdate_headFrame
      intro w hw
      unfold refsWrites at hw
      rcases List.mem_append.mp hw with hw | hw
      · obtain ⟨kv, _, rfl⟩ := List.mem_map.mp hw
        exact ⟨"refs", [kv.1], rfl, by decide⟩
      · simp only [List.mem_singleton] at hw
        subst hw
        exact ⟨"updatedAt", [], rfl, by decide⟩
    · intro k' hk'
      rw [hget, hbase]
      apply applyUpdate_sibFrame
      intro w hw
      unfold refsWrites at hw
      rcases List.mem_append.mp hw with hw | hw
      · obtain ⟨kv, hkv, rfl⟩ := List.mem_map.mp hw
        refine Or.inl ⟨kv.1, rfl, ?_⟩
        intro hkk
        exact hk' (hkk ▸ List.mem_map.mpr ⟨kv, hkv, rfl⟩)
      · simp only [List.mem_singleton] at hw
        subst hw
        exact Or.inr ⟨"updatedAt", [], rfl, by decide⟩
    · rw [hget]
      exact applyUpdate_last_root _ d .timestampSentinel "updatedAt"

/-- Witness for C8: the spec's concrete relational round-trip — a comment
`{data: {text:"hi"}, refs: {postId:"p1"}}` updated via
`updateData({text:"bye"})` keeps `refs.postId = "p1"`. -/
theorem updateData_updateRefs_frame_witness :
    ∃ st', updateDataOp
        [("c1", FVal.obj [("data", .obj [("text", .prim "hi")]),
          ("refs", .obj [("postId", .prim "p1")])])]
        "c1" [("text", FVal.prim "bye")] = .ok st' ∧
      getPathInStore st' "c1" ["refs"] =
        some (.obj [("postId", .prim "p1")]) := by
  obtain ⟨⟨st', h1, h2, _, _⟩, _⟩ := updateData_updateRefs_frame
    [("c1", FVal.obj [("data", .obj [("text", .prim "hi")]),
      ("refs", .obj [("postId", .prim "p1")])])]
    "c1" [("text", FVal.prim "bye")] []
    (FVal.obj [("data", .obj [("text", .prim "hi")]),
      ("refs", .obj [("postId", .prim "p1")])]) rfl
  refine ⟨st', h1, ?_⟩
  rw [h2]
  rfl

/-! ## Batch service (`services/batch/BatchService.ts`)

The service operates on one collection's store.  The underlying client's
`WriteBatch` contract (spec §6 and glossary: a batch chunk is "committed as
one atomic unit") is modelled as: `update` writes require every target
document to exist — a commit containing an update of a missing document
rejects, and then none of the chunk's writes apply; a commit of `set`
writes (batchCreate) has no such precondition, but as a network call it may
still fail, which the model captures with a per-chunk failure oracle.
`DataSanitizer.validateAndSanitize` is total on the tree-shaped values
representable here, so staging failures arise exactly from `validateId`. -/

/-- `MAX_BATCH_SIZE = 500`. -/
def MAX_BATCH_SIZE : Nat := 500

/-- One entry of the `failed` array: `{ id, error }`. -/
structure FailedOp where
  id : String
  error : String
  deriving Repr, DecidableEq

/-- `BatchResult` from `src/core/types`.  `count` is an integer because
`batchUpdate` computes it as `allIds.length - failed.length`, which JS
evaluates in ℤ. -/
structure BatchResult where
  success : Bool
  count : Int
  ids : List String
  failed : Option (List FailedOp)
  deriving Repr, DecidableEq

/-- `BatchOperationError` (`src/core/errors.ts`). -/
inductive BatchError where
  | batchOperationError (message : String)
    (failedOperations : List FailedOp)
  deriving Repr, DecidableEq

/-- The error message (if any) of `validateId` from `src/core/utils.ts`
(`id.includes("/")` is membership of the one-character separator). -/
def validateIdErr (id : String) : Option String :=
  if id = "" then some "Invalid ID: must be a non-empty string"
  else if id.toList.contains '/' then some "Invalid ID: cannot contain '/'"
  else none

/-- One item of a `batchUpdate` call. -/
structure UpdItem where
  id : String
  data : List (String × FVal)
  deriving Repr

/-- The update object `{...sanitized, updatedAt: serverTimestamp()}` of one
staged `batch.update`, as field-path writes (top-level keys containing dots
address nested fields). -/
def updWrites (data : List (String × FVal)) : List (List String × FVal) :=
  data.map (fun kv => (kv.1.splitOn ".", kv.2)) ++
    [(["updatedAt"], FVal.timestampSentinel)]

/-- The staging loop of one `batchUpdate` chunk: per item, `validateId`
failures go to `failed`, otherwise the update is staged on the `WriteBatch`
and the id pushed onto `allIds`.  Returns (staged ops, staged ids, staging
failures), each in source order. -/
def stageChunk : List UpdItem →
    List (String × List (String × FVal)) × List String × List FailedOp
  | [] => ([], [], [])
  | item :: rest =>
    let s := stageChunk rest
    match validateIdErr item.id with
    | none => ((item.id, item.data) :: s.1, item.id :: s.2.1, s.2.2)
    | some msg => (s.1, s.2.1, ⟨item.id, msg⟩ :: s.2.2)

/-- `WriteBatch.commit()` for staged updates: atomic — if any target is
missing the whole commit rejects (`NOT_FOUND`) and no write applies;
otherwise all staged updates apply in order. -/
def commitUpdates (store : Store)
    (ops : List (String × List (String × FVal))) : Option Store :=
  if ops.all (fun op => (getField store op.1).isSome) then
    some (ops.foldl (fun st op =>
      match getField st op.1 with
      | some d => setField st op.1 (applyUpdate d (updWrites op.2))
      | none => st) store)
  else none

/-- The commit-failure `chunk.forEach` shared by the batch operations: for
each chunk item in order, push `{id, error}` onto `failed` unless
`failed.find(f => f.id === item.id)` already hits — checked against the
*growing* array, so a second chunk item with an already-failed id is not
pushed again. -/
def dedupPush (failed : List FailedOp) (ids : List String)
    (msg : String) : List FailedOp :=
  match ids with
  | [] => failed
  | id :: rest =>
    match failed.find? (fun f => f.id == id) with
    | some _ => dedupPush failed rest msg
    | none => dedupPush (failed ++ [⟨id, msg⟩]) rest msg

/-- The chunk loop of `BatchService.batchUpdate`: stage each chunk, commit
it, and on a rejected commit run the deduplicating push of every chunk
item's id onto the global `failed` list with the commit error. -/
def batchUpdateGo (store : Store) :
    List (List UpdItem) → List String → List FailedOp →
      Store × List String × List FailedOp
  | [], allIds, failed => (store, allIds, failed)
  | chunk :: rest, allIds, failed =>
    let s := stageChunk chunk
    match commitUpdates store s.1 with
    | some st' => batchUpdateGo st' rest (allIds ++ s.2.1) (failed ++ s.2.2)
    | none =>
      batchUpdateGo store rest (allIds ++ s.2.1)
        (dedupPush (failed ++ s.2.2) (chunk.map (·.id)) "NOT_FOUND")

/-- `BatchService.batchUpdate` (its `operation` closure): chunk the input
by `MAX_BATCH_SIZE`, run the chunk loop, and return the `BatchResult`.
There is no `throw` in this closure — partial and even total failures are
returned, not thrown. -/
def batchUpdate (store : Store) (updates : List UpdItem) :
    Except BatchError (BatchResult × Store) :=
  let r := batchUpdateGo store (chunkArray updates MAX_BATCH_SIZE) [] []
  .ok (⟨r.2.2.isEmpty, (r.2.1.length : Int) - (r.2.2.length : Int), r.2.1,
    if r.2.2.isEmpty then none else some r.2.2⟩, r.1)

/-- `WriteBatch.commit()` for a chunk of `batch.set` creations: applies
`{...sanitized, createdAt: serverTimestamp()}` under each generated id. -/
def applyCreates (store : Store)
    (items : List (String × List (String × FVal))) : Store :=
  items.foldl (fun st it =>
    setField st it.1 (.obj (setField it.2 "createdAt" FVal.timestampSentinel)))
    store

/-- The chunk loop of `BatchService.batchCreate`: each document gets a
generated id (`freshIds` is the `doc()` id generator, fed by a running
counter); a chunk whose commit rejects (`commitFails` indexes chunks) sends
all its generated ids to `failed`, a committed chunk appends them to
`allIds`. -/
def batchCreateGo (freshIds : Nat → String) (commitFails : Nat → Bool) :
    List (List (List (String × FVal))) → Nat → Nat → Store →
      List String → List FailedOp → Store × List String × List FailedOp
  | [], _, _, store, allIds, failed => (store, allIds, failed)
  | chunk :: rest, n, i, store, allIds, failed =>
    let chunkIds := (List.range chunk.length).map (fun j => freshIds (n + j))
    if commitFails i then
      batchCreateGo freshIds commitFails rest (n + chunk.length) (i + 1)
        store allIds
        (failed ++ chunkIds.map (fun id => ⟨id, "commit failed"⟩))
    else
      batchCreateGo freshIds commitFails rest (n + chunk.length) (i + 1)
        (applyCreates store (chunkIds.zip chunk)) (allIds ++ chunkIds) failed

/-- `BatchService.batchCreate` (its `operation` closure): after the chunk
loop, a non-empty `failed` with an empty `allIds` — i.e. zero successes —
throws `BatchOperationError("All batch create operations failed", failed)`;
otherwise the `BatchResult` is returned. -/
def batchCreate (store : Store) (documents : List (List (String × FVal)))
    (freshIds : Nat → String) (commitFails : Nat → Bool) :
    Except BatchError (BatchResult × Store) :=
  let r := batchCreateGo freshIds commitFails
    (chunkArray documents MAX_BATCH_SIZE) 0 0 store [] []
  if ¬ r.2.2.isEmpty ∧ r.2.1.isEmpty then
    .error (.batchOperationError "All batch create operations failed" r.2.2)
  else
    .ok (⟨r.2.2.isEmpty, (r.2.1.length : Int), r.2.1,
      if r.2.2.isEmpty then none else some r.2.2⟩, r.1)

/-- One item of a `batchSet` call: `{id, data, merge?}`. -/
structure SetItem where
  id : String
  data : List (String × FVal)
  merge : Bool
  deriving Repr

/-- One item of a `batchIncrement` call: `{id, field, amount}`. -/
structure IncItem where
  id : String
  field : String
  amount : Int
  deriving Repr, DecidableEq

/-- The staging loop of one `batchSet` chunk: `validateId` failures go to
`failed`; otherwise the `set` is staged and the id pushed onto `allIds`
(inside the `try`, so only staged ids are pushed). -/
def stageSetChunk : List SetItem →
    List SetItem × List String × List FailedOp
  | [] => ([], [], [])
  | item :: rest =>
    let s := stageSetChunk rest
    match validateIdErr item.id with
    | none => (item :: s.1, item.id :: s.2.1, s.2.2)
    | some msg => (s.1, s.2.1, ⟨item.id, msg⟩ :: s.2.2)

/-- The chunk loop of `BatchService.batchSet`.  A `set` write has no
existence precondition, so only an external failure (the `commitFails`
oracle, indexed by chunk) can reject the commit; the store effect of one
committed `set` is the external client's (`applyItem`). -/
def batchSetGo (applyItem : Store → SetItem → Store)
    (commitFails : Nat → Bool) :
    List (List SetItem) → Nat → Store → List String → List FailedOp →
      Store × List String × List FailedOp
  | [], _, store, allIds, failed => (store, allIds, failed)
  | chunk :: rest, i, store, allIds, failed =>
    let s := stageSetChunk chunk
    if commitFails i then
      batchSetGo applyItem commitFails rest (i + 1) store (allIds ++ s.2.1)
        (dedupPush (failed ++ s.2.2) (chunk.map (·.id)) "commit failed")
    else
      batchSetGo applyItem commitFails rest (i + 1)
        (s.1.foldl applyItem store) (allIds ++ s.2.1) (failed ++ s.2.2)

/-- `BatchService.batchSet` (its `operation` closure): no `throw`
anywhere — the `BatchResult` with `count = allIds.length - failed.length`
is always returned. -/
def batchSetOp (store : Store) (documents : List SetItem)
    (applyItem : Store → SetItem → Store) (commitFails : Nat → Bool) :
    Except BatchError (BatchResult × Store) :=
  let r := batchSetGo applyItem commitFails
    (chunkArray documents MAX_BATCH_SIZE) 0 store [] []
  .ok (⟨r.2.2.isEmpty, (r.2.1.length : Int) - (r.2.2.length : Int), r.2.1,
    if r.2.2.isEmpty then none else some r.2.2⟩, r.1)

/-- The staging loop of one `batchDelete` chunk: staged (valid) ids and
per-item `validateId` failures. -/
def stageDelChunk : List String → List String × List FailedOp
  | [] => ([], [])
  | id :: rest =>
    let s := stageDelChunk rest
    match validateIdErr id with
    | none => (id :: s.1, s.2)
    | some msg => (s.1, ⟨id, msg⟩ :: s.2)

/-- The chunk loop of `BatchService.batchDelete`: deletes have no existence
precondition, so only the external oracle can reject a commit.  On a
committed chunk the source adds
`chunk.length - failed.filter(f => chunk.includes(f.id)).length` to the
deleted counter (the filter runs over the whole global `failed` list); on a
rejected one it runs the deduplicating push. -/
def batchDeleteGo (commitFails : Nat → Bool) :
    List (List String) → Nat → Store → Int → List FailedOp →
      Store × Int × List FailedOp
  | [], _, store, deleted, failed => (store, deleted, failed)
  | chunk :: rest, i, store, deleted, failed =>
    let s := stageDelChunk chunk
    if commitFails i then
      batchDeleteGo commitFails rest (i + 1) store deleted
        (dedupPush (failed ++ s.2) chunk "commit failed")
    else
      batchDeleteGo commitFails rest (i + 1)
        (store.filter (fun kv => !(s.1.contains kv.1)))
        (deleted + ((chunk.length : Int) -
          (((failed ++ s.2).filter (fun f => chunk.contains f.id)).length :
            Int)))
        (failed ++ s.2)

/-- `BatchService.batchDelete` (its `operation` closure): never throws;
`count` is the deleted counter and `ids` is the *input* id list. -/
def batchDeleteOp (store : Store) (ids : List String)
    (commitFails : Nat → Bool) : Except BatchError (BatchResult × Store) :=
  let r := batchDeleteGo commitFails (chunkArray ids MAX_BATCH_SIZE) 0
    store 0 []
  .ok (⟨r.2.2.isEmpty, r.2.1, ids,
    if r.2.2.isEmpty then none else some r.2.2⟩, r.1)

/-- The staging loop of one `batchIncrement` chunk. -/
def stageIncChunk : List IncItem →
    List IncItem × List String × List FailedOp
  | [] => ([], [], [])
  | item :: rest =>
    let s := stageIncChunk rest
    match validateIdErr item.id with
    | none => (item :: s.1, item.id :: s.2.1, s.2.2)
    | some msg => (s.1, s.2.1, ⟨item.id, msg⟩ :: s.2.2)

/-- `WriteBatch.commit()` for staged `update`-with-increment writes: like
any update commit it is atomic and rejects if a target is missing; the
server-side arithmetic of the increment sentinel is the external client's
(`applyItem`). -/
def commitIncrements (applyItem : Store → IncItem → Store) (store : Store)
    (ops : List IncItem) : Option Store :=
  if ops.all (fun op => (getField store op.id).isSome) then
    some (ops.foldl applyItem store)
  else none

/-- The chunk loop of `BatchService.batchIncrement`. -/
def batchIncrementGo (applyItem : Store → IncItem → Store) :
    List (List IncItem) → Store → List String → List FailedOp →
      Store × List String × List FailedOp
  | [], store, allIds, failed => (store, allIds, failed)
  | chunk :: rest, store, allIds, failed =>
    let s := stageIncChunk chunk
    match commitIncrements applyItem store s.1 with
    | some st' =>
      batchIncrementGo applyItem rest st' (allIds ++ s.2.1)
        (failed ++ s.2.2)
    | none =>
      batchIncrementGo applyItem rest store (allIds ++ s.2.1)
        (dedupPush (failed ++ s.2.2) (chunk.map (·.id)) "NOT_FOUND")

/-- `BatchService.batchIncrement` (its `operation` closure): never throws;
same result shape as `batchSet`/`batchUpdate`. -/
def batchIncrementOp (store : Store) (updates : List IncItem)
    (applyItem : Store → IncItem → Store) :
    Except BatchError (BatchResult × Store) :=
  let r := batchIncrementGo applyItem
    (chunkArray updates MAX_BATCH_SIZE) store [] []
  .ok (⟨r.2.2.isEmpty, (r.2.1.length : Int) - (r.2.2.length : Int), r.2.1,
    if r.2.2.isEmpty then none else some r.2.2⟩, r.1)

/-! ### Batch lemmas -/

lemma chunkArray_nil (n : Nat) : chunkArray ([] : List α) n = [] := rfl

/-- A non-empty input that fits in one chunk yields exactly one chunk. -/
lemma chunkArray_single (l : List α) (n : Nat) (h : 0 < n)
    (hne : l ≠ []) (hlen : l.length ≤ n) : chunkArray l n = [l] := by
  cases l with
  | nil => exact absurd rfl hne
  | cons x xs =>
    rw [chunkArray_cons x xs n h, List.take_of_length_le hlen,
      List.drop_eq_nil_of_le hlen, chunkArray_nil]

/-- Staging a chunk whose ids all pass `validateId` stages every item, in
order, with no staging failures. -/
lemma stageChunk_allValid (chunk : List UpdItem)
    (h : ∀ it ∈ chunk, validateIdErr it.id = none) :
    stageChunk chunk =
      (chunk.map (fun it => (it.id, it.data)), chunk.map (·.id), []) := by
  induction chunk with
  | nil => rfl
  | cons item rest ih =>
    have hitem := h item (List.mem_cons_self item rest)
    rw [stageChunk, ih (fun it hit => h it (List.mem_cons_of_mem item hit)),
      hitem]
    rfl

/-- An atomic commit containing an update of a missing document rejects. -/
lemma commitUpdates_missing (store : Store)
    (ops : List (String × List (String × FVal)))
    (h : ∃ op ∈ ops, getField store op.1 = none) :
    commitUpdates store ops = none := by
  obtain ⟨op, hmem, hnone⟩ := h
  unfold commitUpdates
  rw [if_neg]
  intro hall
  have := List.all_eq_true.mp hall op hmem
  rw [hnone] at this
  simp at this

/-- The deduplicating push appends one entry per id when no pushed id is
already in `failed` and the ids are pairwise distinct. -/
lemma dedupPush_fresh (msg : String) :
    ∀ (ids : List String) (failed : List FailedOp),
      (∀ id ∈ ids, ∀ f ∈ failed, f.id ≠ id) → ids.Nodup →
      dedupPush failed ids msg =
        failed ++ ids.map (fun id => ⟨id, msg⟩) := by
  intro ids
  induction ids with
  | nil =>
    intro failed _ _
    simp [dedupPush]
  | cons id rest ih =>
    intro failed hfresh hnodup
    have hfind : failed.find? (fun f => f.id == id) = none := by
      rw [List.find?_eq_none]
      intro f hf
      simp only [beq_iff_eq]
      exact hfresh id (List.mem_cons_self id rest) f hf
    rw [dedupPush, hfind]
    show dedupPush (failed ++ [⟨id, msg⟩]) rest msg = _
    have hfresh' : ∀ id' ∈ rest, ∀ f ∈ failed ++ [(⟨id, msg⟩ : FailedOp)],
        f.id ≠ id' := by
      intro id' hid' f hf
      rcases List.mem_append.mp hf with hold | hnew
      · exact hfresh id' (List.mem_cons_of_mem id hid') f hold
      · simp only [List.mem_singleton] at hnew
        subst hnew
        intro hcontra
        have hii : id = id' := hcontra
        exact (List.nodup_cons.mp hnodup).1 (hii ▸ hid')
    have hih := ih (failed ++ [⟨id, msg⟩]) hfresh'
      (List.nodup_cons.mp hnodup).2
    rw [hih, List.append_assoc]
    rfl

/-- The deduplicating push adds nothing when every pushed id already has an
entry in `failed`. -/
lemma dedupPush_noop (msg : String) :
    ∀ (ids : List String) (failed : List FailedOp),
      (∀ id ∈ ids, ∃ f ∈ failed, f.id = id) →
      dedupPush failed ids msg = failed := by
  intro ids
  induction ids with
  | nil =>
    intro failed _
    rfl
  | cons id rest ih =>
    intro failed hcov
    obtain ⟨f, hf, hfid⟩ := hcov id (List.mem_cons_self id rest)
    cases hfind : failed.find? (fun f => f.id == id) with
    | none =>
      exact absurd hfid (by simpa using List.find?_eq_none.mp hfind f hf)
    | some f' =>
      rw [dedupPush, hfind]
      exact ih failed (fun id' hid' => hcov id' (List.mem_cons_of_mem id hid'))

/-- One-chunk `batchUpdate` over distinct valid ids where at least one
target document is missing: the atomic commit rejects, every id lands in
`failed` with the commit error, the store is untouched, and the result is a
*returned* `BatchResult` with `success = false` and
`count = |ids| - |failed| = 0`. -/
lemma batchUpdate_singleChunk_reject (store : Store)
    (updates : List UpdItem) (hne : updates ≠ [])
    (hlen : updates.length ≤ MAX_BATCH_SIZE)
    (hnodup : (updates.map (·.id)).Nodup)
    (hvalid : ∀ it ∈ updates, validateIdErr it.id = none)
    (hmiss : ∃ it ∈ updates, getField store it.id = none) :
    batchUpdate store updates =
      .ok (⟨false, 0, updates.map (·.id),
        some (updates.map (fun it => ⟨it.id, "NOT_FOUND"⟩))⟩, store) := by
  have hchunks : chunkArray updates MAX_BATCH_SIZE = [updates] :=
    chunkArray_single updates MAX_BATCH_SIZE (by decide) hne hlen
  have hstage := stageChunk_allValid updates hvalid
  have hcommit : commitUpdates store
      (updates.map (fun it => (it.id, it.data))) = none := by
    apply commitUpdates_missing
    obtain ⟨it, hmem, hnone⟩ := hmiss
    exact ⟨(it.id, it.data), List.mem_map.mpr ⟨it, hmem, rfl⟩, hnone⟩
  have hgo : batchUpdateGo store [updates] [] [] =
      (store, updates.map (·.id),
        updates.map (fun it => ⟨it.id, "NOT_FOUND"⟩)) := by
    rw [batchUpdateGo, hstage]
    simp only [hcommit]
    rw [batchUpdateGo]
    simp only [List.nil_append, List.append_nil]
    congr 1
    congr 1
    rw [dedupPush_fresh "NOT_FOUND" (updates.map (·.id)) []
      (fun id _ f hf => absurd hf (List.not_mem_nil f)) hnodup]
    simp [List.map_map]
  have hEmpty : (updates.map
      (fun it => (⟨it.id, "NOT_FOUND"⟩ : FailedOp))).isEmpty = false := by
    cases updates with
    | nil => exact absurd rfl hne
    | cons a l => rfl
  unfold batchUpdate
  rw [hchunks, hgo]
  simp [hEmpty, List.length_map]

/-- Concrete store with documents `a` and `b` (and no `c`). -/
def exStoreAB : Store :=
  [("a", .obj [("data", .obj [("x", .prim "0")])]), ("b", .obj [])]

/-- Concrete `batchUpdate` input over the three ids `a`, `b`, `c`. -/
def exUpdates3 : List UpdItem :=
  [⟨"a", [("x", .prim "1")]⟩, ⟨"b", [("x", .prim "2")]⟩,
    ⟨"c", [("x", .prim "3")]⟩]

/-- Counterexample to C6 as stated: for a `batchUpdate` over `a`, `b`, `c`
of which exactly `c` is missing, all three updates share one atomic
`WriteBatch`; its commit rejects, so the code returns `success = false`,
`count = 0` (not 2), a `failed` list with all three ids (not just `c`), and
leaves the store unchanged (the two existing documents are *not*
updated). -/
theorem batchUpdate_oneMissing_counterexample :
    ∃ r, batchUpdate exStoreAB exUpdates3 = .ok (r, exStoreAB) ∧
      r.success = false ∧ r.count = 0 ∧ ¬ r.count = 2 ∧
      (r.failed.getD []).length = 3 ∧ ¬ (r.failed.getD []).length = 1 := by
  refine ⟨⟨false, 0, ["a", "b", "c"],
    some [⟨"a", "NOT_FOUND"⟩, ⟨"b", "NOT_FOUND"⟩, ⟨"c", "NOT_FOUND"⟩]⟩,
    ?_, rfl, rfl, by decide, rfl, by decide⟩
  have h := batchUpdate_singleChunk_reject exStoreAB exUpdates3
    (by simp [exUpdates3])
    (by simp [exUpdates3, MAX_BATCH_SIZE])
    (by simp [exUpdates3])
    (by intro it hit
        simp only [exUpdates3, List.mem_cons, List.not_mem_nil, or_false]
          at hit
        rcases hit with rfl | rfl | rfl <;> rfl)
    ⟨⟨"c", [("x", .prim "3")]⟩, by simp [exUpdates3], rfl⟩
  simpa [exUpdates3] using h

/-- **C6 (amended).** For a `batchUpdate` over a single chunk of distinct
target ids (all ids valid) of which at least one does not exist — in
particular three ids of which one is missing — the chunk's single atomic
commit rejects: the returned `BatchResult` has `success = false`,
`count = 0`, a `failed` list containing *every* id of the chunk with the
commit error, and no update has committed (the store is unchanged). -/
theorem batchUpdate_missing_fails_whole_chunk (store : Store)
    (updates : List UpdItem) (hne : updates ≠ [])
    (hlen : updates.length ≤ MAX_BATCH_SIZE)
    (hnodup : (updates.map (·.id)).Nodup)
    (hvalid : ∀ it ∈ updates, validateIdErr it.id = none)
    (hmiss : ∃ it ∈ updates, getField store it.id = none) :
    batchUpdate store updates =
      .ok (⟨false, 0, updates.map (·.id),
        some (updates.map (fun it => ⟨it.id, "NOT_FOUND"⟩))⟩, store) :=
  batchUpdate_singleChunk_reject store updates hne hlen hnodup hvalid hmiss

/-- Witness for C6's amended theorem: the concrete three-id scenario. -/
theorem batchUpdate_missing_fails_whole_chunk_witness :
    batchUpdate exStoreAB exUpdates3 =
      .ok (⟨false, 0, ["a", "b", "c"],
        some [⟨"a", "NOT_FOUND"⟩, ⟨"b", "NOT_FOUND"⟩, ⟨"c", "NOT_FOUND"⟩]⟩,
        exStoreAB) := by
  have h := batchUpdate_missing_fails_whole_chunk exStoreAB exUpdates3
    (by simp [exUpdates3])
    (by simp [exUpdates3, MAX_BATCH_SIZE])
    (by simp [exUpdates3])
    (by intro it hit
        simp only [exUpdates3, List.mem_cons, List.not_mem_nil, or_false]
          at hit
        rcases hit with rfl | rfl | rfl <;> rfl)
    ⟨⟨"c", [("x", .prim "3")]⟩, by simp [exUpdates3], rfl⟩
  simpa [exUpdates3] using h

/-- Every chunk produced by `chunkArray` with a positive size is
non-empty. -/
lemma chunkArray_mem_ne_nil (n : Nat) (h : 0 < n) :
    ∀ (l : List α), ∀ c ∈ chunkArray l n, c ≠ [] := by
  suffices hmain : ∀ N (l : List α), l.length ≤ N →
      ∀ c ∈ chunkArray l n, c ≠ [] from fun l => hmain l.length l le_rfl
  intro N
  induction N with
  | zero =>
    intro l hl c hc
    have : l = [] := List.length_eq_zero.mp (Nat.le_zero.mp hl)
    subst this
    simp [chunkArray, chunkArrayGo_nil] at hc
  | succ N ih =>
    intro l hl c hc
    cases l with
    | nil => simp [chunkArray, chunkArrayGo_nil] at hc
    | cons x xs =>
      rw [chunkArray_cons x xs n h] at hc
      rcases List.mem_cons.mp hc with rfl | hc'
      · obtain ⟨m, rfl⟩ : ∃ m, n = m + 1 := ⟨n - 1, by omega⟩
        simp
      · refine ih ((x :: xs).drop n) ?_ c hc'
        simp only [List.length_drop, List.length_cons]
        simp only [List.length_cons] at hl
        omega

/-- When every chunk commit fails, `batchCreate`'s loop leaves the store
and `allIds` untouched and appends one failure per document. -/
lemma batchCreateGo_allFail (freshIds : Nat → String) :
    ∀ (chunks : List (List (List (String × FVal)))) (n i : Nat)
      (store : Store) (allIds : List String) (failed : List FailedOp),
      ∃ extra,
        batchCreateGo freshIds (fun _ => true) chunks n i store allIds failed
          = (store, allIds, failed ++ extra) ∧
        extra.length = (chunks.map List.length).sum := by
  intro chunks
  induction chunks with
  | nil =>
    intro n i store allIds failed
    exact ⟨[], by simp [batchCreateGo], by simp⟩
  | cons chunk rest ih =>
    intro n i store allIds failed
    obtain ⟨extra', hgo, hlen⟩ := ih (n + chunk.length) (i + 1) store allIds
      (failed ++ ((List.range chunk.length).map
        (fun j => freshIds (n + j))).map (fun id => ⟨id, "commit failed"⟩))
    refine ⟨((List.range chunk.length).map
      (fun j => freshIds (n + j))).map (fun id => ⟨id, "commit failed"⟩)
        ++ extra', ?_, ?_⟩
    · rw [batchCreateGo, hgo, List.append_assoc]
      simp
    · simp [hlen]

/-- `batchCreate`'s loop only ever appends to `allIds`. -/
lemma batchCreateGo_allIds_mono (freshIds : Nat → String)
    (commitFails : Nat → Bool) :
    ∀ (chunks : List (List (List (String × FVal)))) (n i : Nat)
      (store : Store) (allIds : List String) (failed : List FailedOp),
      ∃ t, (batchCreateGo freshIds commitFails chunks n i store allIds
        failed).2.1 = allIds ++ t := by
  intro chunks
  induction chunks with
  | nil =>
    intro n i store allIds failed
    exact ⟨[], by simp [batchCreateGo]⟩
  | cons chunk rest ih =>
    intro n i store allIds failed
    rw [batchCreateGo]
    cases hcf : commitFails i with
    | true =>
      simp only [if_pos rfl]
      exact ih _ _ _ _ _
    | false =>
      simp only [Bool.false_eq_true, if_false]
      obtain ⟨t, ht⟩ := ih (n + chunk.length) (i + 1)
        (applyCreates store (((List.range chunk.length).map
          (fun j => freshIds (n + j))).zip chunk))
        (allIds ++ (List.range chunk.length).map (fun j => freshIds (n + j)))
        failed
      exact ⟨(List.range chunk.length).map (fun j => freshIds (n + j)) ++ t,
        by rw [ht, List.append_assoc]⟩

/-- If some chunk's commit succeeds and that chunk is non-empty, the final
`allIds` is non-empty. -/
lemma batchCreateGo_success_nonempty (freshIds : Nat → String)
    (commitFails : Nat → Bool) :
    ∀ (chunks : List (List (List (String × FVal)))) (j n i : Nat)
      (store : Store) (allIds : List String) (failed : List FailedOp)
      (hj : j < chunks.length),
      commitFails (i + j) = false → chunks.get ⟨j, hj⟩ ≠ [] →
      (batchCreateGo freshIds commitFails chunks n i store allIds
        failed).2.1 ≠ [] := by
  intro chunks
  induction chunks with
  | nil =>
    intro j n i store allIds failed hj
    exact absurd hj (by simp)
  | cons chunk rest ih =>
    intro j n i store allIds failed hj hcf hchunk
    cases j with
    | zero =>
      simp only [Nat.add_zero] at hcf
      simp only [List.get] at hchunk
      rw [batchCreateGo]
      simp only [hcf, Bool.false_eq_true, if_false]
      obtain ⟨t, ht⟩ := batchCreateGo_allIds_mono freshIds commitFails rest
        (n + chunk.length) (i + 1)
        (applyCreates store (((List.range chunk.length).map
          (fun j => freshIds (n + j))).zip chunk))
        (allIds ++ (List.range chunk.length).map (fun j => freshIds (n + j)))
        failed
      rw [ht]
      intro hnil
      rcases List.append_eq_nil.mp hnil with ⟨h1, _⟩
      rcases List.append_eq_nil.mp h1 with ⟨_, h2⟩
      have : chunk.length = 0 := by
        by_contra hne
        have : (List.range chunk.length).map (fun j => freshIds (n + j))
            ≠ [] := by
          simp [List.map_eq_nil_iff, List.range_eq_nil, hne]
        exact this h2
      exact hchunk (List.length_eq_zero.mp this)
    | succ j' =>
      have hj' : j' < rest.length := by
        simp only [List.length_cons] at hj
        omega
      have hcf' : commitFails ((i + 1) + j') = false := by
        rw [show (i + 1) + j' = i + (j' + 1) by omega]
        exact hcf
      have hchunk' : rest.get ⟨j', hj'⟩ ≠ [] := hchunk
      rw [batchCreateGo]
      cases hc : commitFails i with
      | true =>
        simp only [if_pos rfl]
        exact ih j' _ _ _ _ _ hj' hcf' hchunk'
      | false =>
        simp only [Bool.false_eq_true, if_false]
        exact ih j' _ _ _ _ _ hj' hcf' hchunk'

/-- Staging a `batchSet` chunk whose ids all fail `validateId` stages
nothing and fails every item. -/
lemma stageSetChunk_allInvalid (chunk : List SetItem)
    (h : ∀ it ∈ chunk, (validateIdErr it.id).isSome = true) :
    stageSetChunk chunk = ([], [],
      chunk.map (fun it => ⟨it.id, (validateIdErr it.id).getD ""⟩)) := by
  induction chunk with
  | nil => rfl
  | cons item rest ih =>
    obtain ⟨msg, hmsg⟩ := Option.isSome_iff_exists.mp
      (h item (List.mem_cons_self item rest))
    rw [stageSetChunk, ih (fun it hit => h it (List.mem_cons_of_mem item hit)),
      hmsg]
    simp [hmsg]

/-- Staging a `batchDelete` chunk whose ids all fail `validateId`. -/
lemma stageDelChunk_allInvalid (chunk : List String)
    (h : ∀ id ∈ chunk, (validateIdErr id).isSome = true) :
    stageDelChunk chunk = ([],
      chunk.map (fun id => ⟨id, (validateIdErr id).getD ""⟩)) := by
  induction chunk with
  | nil => rfl
  | cons id rest ih =>
    obtain ⟨msg, hmsg⟩ := Option.isSome_iff_exists.mp
      (h id (List.mem_cons_self id rest))
    rw [stageDelChunk, ih (fun id' hid' => h id' (List.mem_cons_of_mem id hid')),
      hmsg]
    simp [hmsg]

/-- Staging a `batchIncrement` chunk whose ids all fail `validateId`. -/
lemma stageIncChunk_allInvalid (chunk : List IncItem)
    (h : ∀ it ∈ chunk, (validateIdErr it.id).isSome = true) :
    stageIncChunk chunk = ([], [],
      chunk.map (fun it => ⟨it.id, (validateIdErr it.id).getD ""⟩)) := by
  induction chunk with
  | nil => rfl
  | cons item rest ih =>
    obtain ⟨msg, hmsg⟩ := Option.isSome_iff_exists.mp
      (h item (List.mem_cons_self item rest))
    rw [stageIncChunk, ih (fun it hit => h it (List.mem_cons_of_mem item hit)),
      hmsg]
    simp [hmsg]

/-- Every id of an all-invalid chunk already has a staging-failure entry,
so the commit-failure dedup push adds nothing. -/
lemma dedupPush_covered {α : Type} (msg : String) (ids : List α)
    (toId : α → String) (fails : List FailedOp)
    (hcov : fails = ids.map (fun a => ⟨toId a, (validateIdErr (toId a)).getD ""⟩)) :
    dedupPush fails (ids.map toId) msg = fails := by
  apply dedupPush_noop
  intro id hid
  obtain ⟨a, ha, rfl⟩ := List.mem_map.mp hid
  exact ⟨⟨toId a, (validateIdErr (toId a)).getD ""⟩,
    hcov ▸ List.mem_map.mpr ⟨a, ha, rfl⟩, rfl⟩

/-- **C7 (amended).** Of the batch operations, only `batchCreate` escalates
total failure to a thrown `BatchOperationError` (carrying the per-item
failure list); `batchSet`, `batchUpdate`, `batchDelete` and
`batchIncrement` return their failed `BatchResult` even when every item
fails.  Concretely: (i) when every chunk commit fails and there is at least
one document, `batchCreate` throws the batch-operation error with one
failure entry per document; (ii) when at least one chunk commit succeeds,
`batchCreate` does not throw — item failures are returned in the result;
(iii) a `batchUpdate` in which *every* item fails (distinct valid ids,
every target missing, zero successes) still *returns* its `BatchResult`
(`success = false`, `count = 0`, all ids in `failed`) instead of throwing;
(iv)–(vi) a `batchSet`, `batchDelete` or `batchIncrement` in which *every*
item fails (all ids invalid, zero successes, any commit outcome where an
oracle applies) likewise returns `success = false` with one failure entry
per item and an untouched store, instead of throwing. -/
theorem batch_total_failure_policy :
    (∀ (store : Store) (docs : List (List (String × FVal)))
      (freshIds : Nat → String), docs ≠ [] →
      ∃ fails, batchCreate store docs freshIds (fun _ => true) =
          .error (.batchOperationError
            "All batch create operations failed" fails) ∧
        fails.length = docs.length) ∧
    (∀ (store : Store) (docs : List (List (String × FVal)))
      (freshIds : Nat → String) (commitFails : Nat → Bool)
      (j : Nat) (hj : j < (chunkArray docs MAX_BATCH_SIZE).length),
      commitFails j = false →
      ∃ r st', batchCreate store docs freshIds commitFails = .ok (r, st')) ∧
    (∀ (store : Store) (updates : List UpdItem), updates ≠ [] →
      updates.length ≤ MAX_BATCH_SIZE →
      (updates.map (·.id)).Nodup →
      (∀ it ∈ updates, validateIdErr it.id = none ∧
        getField store it.id = none) →
      batchUpdate store updates =
        .ok (⟨false, 0, updates.map (·.id),
          some (updates.map (fun it => ⟨it.id, "NOT_FOUND"⟩))⟩, store)) ∧
    (∀ (store : Store) (items : List SetItem)
      (applyItem : Store → SetItem → Store) (commitFails : Nat → Bool),
      items ≠ [] → items.length ≤ MAX_BATCH_SIZE →
      (∀ it ∈ items, (validateIdErr it.id).isSome = true) →
      batchSetOp store items applyItem commitFails =
        .ok (⟨false, -(items.length : Int), [],
          some (items.map
            (fun it => ⟨it.id, (validateIdErr it.id).getD ""⟩))⟩, store)) ∧
    (∀ (store : Store) (ids : List String) (commitFails : Nat → Bool),
      ids ≠ [] → ids.length ≤ MAX_BATCH_SIZE →
      (∀ id ∈ ids, (validateIdErr id).isSome = true) →
      batchDeleteOp store ids commitFails =
        .ok (⟨false, 0, ids,
          some (ids.map
            (fun id => ⟨id, (validateIdErr id).getD ""⟩))⟩, store)) ∧
    (∀ (store : Store) (updates : List IncItem)
      (applyItem : Store → IncItem → Store),
      updates ≠ [] → updates.length ≤ MAX_BATCH_SIZE →
      (∀ it ∈ updates, (validateIdErr it.id).isSome = true) →
      batchIncrementOp store updates applyItem =
        .ok (⟨false, -(updates.length : Int), [],
          some (updates.map
            (fun it => ⟨it.id, (validateIdErr it.id).getD ""⟩))⟩, store)) := by
  refine ⟨?_, ?_, ?_, ?_, ?_, ?_⟩
  · intro store docs freshIds hne
    obtain ⟨extra, hgo, hlen⟩ := batchCreateGo_allFail freshIds
      (chunkArray docs MAX_BATCH_SIZE) 0 0 store [] []
    have hsum : ((chunkArray docs MAX_BATCH_SIZE).map List.length).sum
        = docs.length := by
      have hflat := (chunkArray_props docs MAX_BATCH_SIZE (by decide)).1
      calc ((chunkArray docs MAX_BATCH_SIZE).map List.length).sum
          = (chunkArray docs MAX_BATCH_SIZE).flatten.length := by
            rw [List.length_flatten]
        _ = docs.length := by rw [hflat]
    have hextra_ne : extra ≠ [] := by
      intro hnil
      rw [hnil] at hlen
      simp only [List.length_nil] at hlen
      rw [hsum] at hlen
      exact hne (List.length_eq_zero.mp hlen.symm)
    refine ⟨extra, ?_, by rw [hlen, hsum]⟩
    unfold batchCreate
    rw [hgo]
    simp only [List.nil_append]
    rw [if_pos]
    constructor
    · simp [List.isEmpty_iff, hextra_ne]
    · simp [List.isEmpty_iff]
  · intro store docs freshIds commitFails j hj hcf
    have hchunk : (chunkArray docs MAX_BATCH_SIZE).get ⟨j, hj⟩ ≠ [] :=
      chunkArray_mem_ne_nil MAX_BATCH_SIZE (by decide) docs _
        (List.get_mem _ _ _)
    have hids := batchCreateGo_success_nonempty freshIds commitFails
      (chunkArray docs MAX_BATCH_SIZE) j 0 0 store [] [] hj
      (by simpa using hcf) hchunk
    unfold batchCreate
    rw [if_neg]
    · exact ⟨_, _, rfl⟩
    · intro hcond
      exact hids (List.isEmpty_iff.mp hcond.2)
  · intro store updates hne hlen hnodup hall
    refine batchUpdate_singleChunk_reject store updates hne hlen hnodup
      (fun it hit => (hall it hit).1) ?_
    cases updates with
    | nil => exact absurd rfl hne
    | cons it rest =>
      exact ⟨it, List.mem_cons_self it rest,
        (hall it (List.mem_cons_self it rest)).2⟩
  · intro store items applyItem commitFails hne hlen hinv
    have hchunks := chunkArray_single items MAX_BATCH_SIZE (by decide) hne hlen
    have hstage := stageSetChunk_allInvalid items hinv
    have hgo : batchSetGo applyItem commitFails [items] 0 store [] [] =
        (store, [], items.map
          (fun it => ⟨it.id, (validateIdErr it.id).getD ""⟩)) := by
      rw [batchSetGo, hstage]
      cases hcf : commitFails 0 with
      | true =>
        simp only [if_pos rfl]
        rw [batchSetGo]
        have hno := dedupPush_covered "commit failed" items (·.id)
          (items.map (fun it => ⟨it.id, (validateIdErr it.id).getD ""⟩)) rfl
        simp only [List.nil_append, List.append_nil]
        rw [hno]
        simp
      | false =>
        simp only [Bool.false_eq_true, if_false]
        rw [batchSetGo]
        simp [List.foldl_nil]
    have hEmptyF : (items.map
        (fun it => (⟨it.id, (validateIdErr it.id).getD ""⟩ : FailedOp))).isEmpty
          = false := by
      cases items with
      | nil => exact absurd rfl hne
      | cons a l => rfl
    unfold batchSetOp
    rw [hchunks, hgo]
    simp [hEmptyF, List.length_map]
  · intro store ids commitFails hne hlen hinv
    have hchunks := chunkArray_single ids MAX_BATCH_SIZE (by decide) hne hlen
    have hstage := stageDelChunk_allInvalid ids hinv
    have hcontains : ∀ f ∈ ids.map
        (fun id => (⟨id, (validateIdErr id).getD ""⟩ : FailedOp)),
        ids.contains f.id = true := by
      intro f hf
      obtain ⟨id, hid, rfl⟩ := List.mem_map.mp hf
      exact List.elem_iff.mpr hid
    have hgo : batchDeleteGo commitFails [ids] 0 store 0 [] =
        (store, 0, ids.map
          (fun id => ⟨id, (validateIdErr id).getD ""⟩)) := by
      rw [batchDeleteGo, hstage]
      cases hcf : commitFails 0 with
      | true =>
        simp only [if_pos rfl]
        rw [batchDeleteGo]
        have hno : dedupPush ([] ++ ids.map
            (fun id => (⟨id, (validateIdErr id).getD ""⟩ : FailedOp))) ids
              "commit failed" =
            ids.map (fun id => ⟨id, (validateIdErr id).getD ""⟩) := by
          rw [List.nil_append]
          apply dedupPush_noop
          intro id hid
          exact ⟨⟨id, (validateIdErr id).getD ""⟩,
            List.mem_map.mpr ⟨id, hid, rfl⟩, rfl⟩
        rw [hno]
        simp
      | false =>
        simp only [Bool.false_eq_true, if_false]
        rw [batchDeleteGo]
        have hfilter : (([] ++ ids.map
            (fun id => (⟨id, (validateIdErr id).getD ""⟩ : FailedOp))).filter
              (fun (f : FailedOp) => ids.contains f.id)) =
            ids.map (fun id => ⟨id, (validateIdErr id).getD ""⟩) := by
          rw [List.nil_append]
          apply List.filter_eq_self.mpr
          intro f hf
          exact hcontains f hf
        have hstore : store.filter
            (fun kv => !(([] : List String).contains kv.1)) = store :=
          List.filter_eq_self.mpr (fun kv _ => rfl)
        rw [hfilter, hstore]
        simp [List.length_map]
    have hEmptyF : (ids.map
        (fun id => (⟨id, (validateIdErr id).getD ""⟩ : FailedOp))).isEmpty
          = false := by
      cases ids with
      | nil => exact absurd rfl hne
      | cons a l => rfl
    unfold batchDeleteOp
    rw [hchunks, hgo]
    simp [hEmptyF]
  · intro store updates applyItem hne hlen hinv
    have hchunks := chunkArray_single updates MAX_BATCH_SIZE (by decide)
      hne hlen
    have hstage := stageIncChunk_allInvalid updates hinv
    have hgo : batchIncrementGo applyItem [updates] store [] [] =
        (store, [], updates.map
          (fun it => ⟨it.id, (validateIdErr it.id).getD ""⟩)) := by
      rw [batchIncrementGo, hstage]
      have hcommit : commitIncrements applyItem store [] = some store := rfl
      rw [hcommit]
      simp [batchIncrementGo]
    have hEmptyF : (updates.map
        (fun it => (⟨it.id, (validateIdErr it.id).getD ""⟩ : FailedOp))).isEmpty
          = false := by
      cases updates with
      | nil => exact absurd rfl hne
      | cons a l => rfl
    unfold batchIncrementOp
    rw [hchunks, hgo]
    simp [hEmptyF, List.length_map]

/-- Counterexample to C7 as stated: a `batchUpdate` in which *every* item
fails (its single item targets a missing document, so there are zero
successes across all chunks) does **not** throw a batch-operation error —
it returns its `BatchResult` normally.  The total-failure escalation exists
only in `batchCreate`. -/
theorem batchUpdate_totalFailure_noThrow_counterexample :
    batchUpdate [] [⟨"a", []⟩] =
      .ok (⟨false, 0, ["a"], some [⟨"a", "NOT_FOUND"⟩]⟩, []) ∧
    ∀ e, batchUpdate [] [⟨"a", []⟩] ≠ .error e := by
  have h : batchUpdate ([] : Store) [⟨"a", []⟩] =
      .ok (⟨false, 0, ["a"], some [⟨"a", "NOT_FOUND"⟩]⟩, []) := rfl
  refine ⟨h, ?_⟩
  intro e he
  rw [h] at he
  cases he

/-- Witness for C7: a one-document `batchCreate` whose only commit fails
throws the batch error with one failure entry; a one-item `batchUpdate`
whose only target is missing, and a one-item `batchSet` whose only id is
invalid, return their failed results without throwing. -/
theorem batch_total_failure_policy_witness :
    (∃ fails, batchCreate [] [[("x", FVal.prim "0")]] (fun _ => "g0")
        (fun _ => true) =
      .error (.batchOperationError "All batch create operations failed"
        fails) ∧ fails.length = 1) ∧
    batchUpdate [] [⟨"a", []⟩] =
      .ok (⟨false, 0, ["a"], some [⟨"a", "NOT_FOUND"⟩]⟩, []) ∧
    batchSetOp [] [⟨"a/b", [], false⟩] (fun st _ => st) (fun _ => false) =
      .ok (⟨false, -1, [],
        some [⟨"a/b", "Invalid ID: cannot contain '/'"⟩]⟩, []) := by
  refine ⟨?_, ?_, ?_⟩
  · exact batch_total_failure_policy.1 [] [[("x", FVal.prim "0")]]
      (fun _ => "g0") (by simp)
  · have h := batch_total_failure_policy.2.2.1 [] [⟨"a", []⟩]
      (by simp) (by simp [MAX_BATCH_SIZE]) (by simp)
      (by intro it hit
          simp only [List.mem_cons, List.not_mem_nil, or_false] at hit
          subst hit
          exact ⟨rfl, rfl⟩)
    simpa using h
  · have h := batch_total_failure_policy.2.2.2.1 [] [⟨"a/b", [], false⟩]
      (fun st _ => st) (fun _ => false)
      (by simp) (by simp [MAX_BATCH_SIZE])
      (by intro it hit
          simp only [List.mem_cons, List.not_mem_nil, or_false] at hit
          subst hit
          rfl)
    simpa using h

/-! ## Circular-reference check (`src/core/sanitizer.ts`)

`validateNoCircularReferences` walks an arbitrary nested map/list structure
depth-first with a single mutated `WeakSet` of already-seen object nodes:
the set is threaded through children and across siblings and is never
unwound after a subtree finishes.  The structure is modelled by reference
identity: nodes are numeric identities, `isObj n` says whether node `n` is
an object/array (only those are walked and added to the `WeakSet`), and
`heap n` lists the identities of `n`'s values/items in order.  `fuel`
bounds the recursion depth so the walk is a total function; the theorems
show the walk never exhausts any fuel beyond the number of distinct object
identities. -/

/-- Result of the walk: normal return (with the final seen-set), the thrown
`"Circular reference detected in data"` error, or fuel exhaustion (which
the termination theorem rules out). -/
inductive VisitResult where
  | ok (seen : List Nat)
  | circular
  | fuelOut
  deriving Repr, DecidableEq

/-- The recursive body of `validateNoCircularReferences`: a non-object
returns immediately; an object already in `seen` throws; otherwise the
object is added to `seen` and its children are visited left to right,
threading the (reference-shared, never unwound) seen-set and propagating a
thrown error. -/
def visit (heap : Nat → List Nat) (isObj : Nat → Bool) :
    Nat → Nat → List Nat → VisitResult
  | 0, _, _ => .fuelOut
  | fuel + 1, n, seen =>
    if isObj n then
      if n ∈ seen then .circular
      else
        (heap n).foldl
          (fun acc c =>
            match acc with
            | .ok s => visit heap isObj fuel c s
            | r => r)
          (.ok (n :: seen))
    else .ok seen

/-- The sibling loop of the walk (the `forEach` over items/values),
starting from an accumulated seen-set. -/
def visitList (heap : Nat → List Nat) (isObj : Nat → Bool) (fuel : Nat)
    (cs : List Nat) (seen : List Nat) : VisitResult :=
  cs.foldl
    (fun acc c =>
      match acc with
      | .ok s => visit heap isObj fuel c s
      | r => r)
    (.ok seen)

/-- `DataSanitizer.validateNoCircularReferences(obj)` with its default
fresh empty `WeakSet`, on the structure rooted at `root`. -/
def validateNoCircularReferences (heap : Nat → List Nat)
    (isObj : Nat → Bool) (fuel root : Nat) : VisitResult :=
  visit heap isObj fuel root []

/-- The values reachable from a node: an object's heap entries, nothing for
a non-object. -/
def children (heap : Nat → List Nat) (isObj : Nat → Bool) (n : Nat) :
    List Nat :=
  if isObj n then heap n else []

/-- Reference-reachability (reflexive-transitive). -/
inductive ReachStar (heap : Nat → List Nat) (isObj : Nat → Bool) :
    Nat → Nat → Prop where
  | refl (n : Nat) : ReachStar heap isObj n n
  | step {n c m : Nat} : c ∈ children heap isObj n →
      ReachStar heap isObj c m → ReachStar heap isObj n m

/-- Reachability in at least one step; `ReachPlus n n` is a reference
cycle through `n`. -/
def ReachPlus (heap : Nat → List Nat) (isObj : Nat → Bool)
    (n m : Nat) : Prop :=
  ∃ c, c ∈ children heap isObj n ∧ ReachStar heap isObj c m

/-! ### Walk lemmas -/

lemma visit_succ (heap : Nat → List Nat) (isObj : Nat → Bool)
    (fuel n : Nat) (seen : List Nat) :
    visit heap isObj (fuel + 1) n seen =
      if isObj n then
        if n ∈ seen then .circular
        else visitList heap isObj fuel (heap n) (n :: seen)
      else .ok seen := rfl

lemma visitList_nil (heap : Nat → List Nat) (isObj : Nat → Bool)
    (fuel : Nat) (seen : List Nat) :
    visitList heap isObj fuel [] seen = .ok seen := rfl

/-- A thrown error propagates through the rest of the sibling loop. -/
lemma visitList_stuck (heap : Nat → List Nat) (isObj : Nat → Bool)
    (fuel : Nat) (r : VisitResult) (h : ∀ s, r ≠ .ok s) :
    ∀ cs : List Nat,
      cs.foldl
        (fun acc c =>
          match acc with
          | .ok s => visit heap isObj fuel c s
          | r => r) r = r := by
  intro cs
  induction cs generalizing r with
  | nil => rfl
  | cons c cs ih =>
    rw [List.foldl_cons]
    cases r with
    | ok s => exact absurd rfl (h s)
    | circular => exact ih .circular h
    | fuelOut => exact ih .fuelOut h

lemma visitList_cons (heap : Nat → List Nat) (isObj : Nat → Bool)
    (fuel c : Nat) (cs : List Nat) (seen : List Nat) :
    visitList heap isObj fuel (c :: cs) seen =
      match visit heap isObj fuel c seen with
      | .ok s => visitList heap isObj fuel cs s
      | r => r := by
  unfold visitList
  rw [List.foldl_cons]
  have hstep : (match VisitResult.ok seen with
      | .ok s => visit heap isObj fuel c s
      | r => r) = visit heap isObj fuel c seen := rfl
  rw [hstep]
  cases hv : visit heap isObj fuel c seen with
  | ok s => rfl
  | circular => exact visitList_stuck heap isObj fuel .circular (by simp) cs
  | fuelOut => exact visitList_stuck heap isObj fuel .fuelOut (by simp) cs

/-- The seen-set only grows along the walk (it is never unwound). -/
lemma visit_mono (heap : Nat → List Nat) (isObj : Nat → Bool) :
    ∀ fuel,
      (∀ n seen seen', visit heap isObj fuel n seen = .ok seen' →
        seen ⊆ seen') ∧
      (∀ cs seen seen', visitList heap isObj fuel cs seen = .ok seen' →
        seen ⊆ seen') := by
  intro fuel
  induction fuel with
  | zero =>
    constructor
    · intro n seen seen' hv
      simp [visit] at hv
    · intro cs
      induction cs with
      | nil =>
        intro seen seen' hv
        rw [visitList_nil] at hv
        injection hv with h'
        subst h'
        exact fun x hx => hx
      | cons c cs ihc =>
        intro seen seen' hv
        rw [visitList_cons] at hv
        simp [visit] at hv
  | succ fuel ih =>
    have hvisit : ∀ n seen seen',
        visit heap isObj (fuel + 1) n seen = .ok seen' → seen ⊆ seen' := by
      intro n seen seen' hv
      rw [visit_succ] at hv
      by_cases ho : isObj n = true
      · rw [if_pos ho] at hv
        by_cases hm : n ∈ seen
        · rw [if_pos hm] at hv
          cases hv
        · rw [if_neg hm] at hv
          have := ih.2 (heap n) (n :: seen) seen' hv
          exact fun x hx => this (List.mem_cons_of_mem n hx)
      · rw [if_neg ho] at hv
        injection hv with h'
        subst h'
        exact fun x hx => hx
    refine ⟨hvisit, ?_⟩
    intro cs
    induction cs with
    | nil =>
      intro seen seen' hv
      rw [visitList_nil] at hv
      injection hv with h'
      subst h'
      exact fun x hx => hx
    | cons c cs ihc =>
      intro seen seen' hv
      rw [visitList_cons] at hv
      cases hcv : visit heap isObj (fuel + 1) c seen with
      | ok s1 =>
        rw [hcv] at hv
        exact (hvisit c seen s1 hcv).trans (ihc s1 seen' hv)
      | circular =>
        rw [hcv] at hv
        cases hv
      | fuelOut =>
        rw [hcv] at hv
        cases hv

/-- Soundness of the walk: a normal return means no object reachable from
the start is in the incoming seen-set and no reachable object lies on a
reference cycle — the walk throws on *every* revisit, whether the second
path to the node closes a cycle or merely shares an acyclic
sub-object. -/
lemma visit_sound (heap : Nat → List Nat) (isObj : Nat → Bool) :
    ∀ fuel,
      (∀ n seen seen', visit heap isObj fuel n seen = .ok seen' →
        ∀ m, isObj m = true → ReachStar heap isObj n m →
          m ∉ seen ∧ ¬ ReachPlus heap isObj m m) ∧
      (∀ cs seen seen', visitList heap isObj fuel cs seen = .ok seen' →
        ∀ c ∈ cs, ∀ m, isObj m = true → ReachStar heap isObj c m →
          m ∉ seen ∧ ¬ ReachPlus heap isObj m m) := by
  intro fuel
  induction fuel with
  | zero =>
    constructor
    · intro n seen seen' hv
      simp [visit] at hv
    · intro cs
      cases cs with
      | nil =>
        intro seen seen' _ c hc
        simp at hc
      | cons c cs =>
        intro seen seen' hv
        rw [visitList_cons] at hv
        simp [visit] at hv
  | succ fuel ih =>
    have hP : ∀ n seen seen',
        visit heap isObj (fuel + 1) n seen = .ok seen' →
        ∀ m, isObj m = true → ReachStar heap isObj n m →
          m ∉ seen ∧ ¬ ReachPlus heap isObj m m := by
      intro n seen seen' hv m hm hr
      rw [visit_succ] at hv
      by_cases ho : isObj n = true
      · rw [if_pos ho] at hv
        by_cases hmem : n ∈ seen
        · rw [if_pos hmem] at hv
          cases hv
        · rw [if_neg hmem] at hv
          cases hr with
          | refl =>
            refine ⟨hmem, ?_⟩
            rintro ⟨c, hc, hcs⟩
            have hc' : c ∈ heap n := by
              unfold children at hc
              rwa [if_pos ho] at hc
            have := (ih.2 (heap n) (n :: seen) seen' hv c hc' n hm hcs).1
            exact this (List.mem_cons_self n seen)
          | step hc hcs =>
            rename_i c
            have hc' : c ∈ heap n := by
              unfold children at hc
              rwa [if_pos ho] at hc
            have h2 := ih.2 (heap n) (n :: seen) seen' hv c hc' m hm hcs
            exact ⟨fun hx => h2.1 (List.mem_cons_of_mem n hx), h2.2⟩
      · cases hr with
        | refl => exact absurd hm ho
        | step hc _ =>
          unfold children at hc
          rw [if_neg ho] at hc
          simp at hc
    refine ⟨hP, ?_⟩
    intro cs
    induction cs with
    | nil =>
      intro seen seen' _ c hc
      simp at hc
    | cons c cs ihc =>
      intro seen seen' hv c' hc' m hm hr
      rw [visitList_cons] at hv
      cases hcv : visit heap isObj (fuel + 1) c seen with
      | ok s1 =>
        rw [hcv] at hv
        rcases List.mem_cons.mp hc' with rfl | hmem
        · exact hP c' seen s1 hcv m hm hr
        · have h2 := ihc s1 seen' hv c' hmem m hm hr
          have hsub : seen ⊆ s1 :=
            (visit_mono heap isObj (fuel + 1)).1 c seen s1 hcv
          exact ⟨fun hx => h2.1 (hsub hx), h2.2⟩
      | circular =>
        rw [hcv] at hv
        cases hv
      | fuelOut =>
        rw [hcv] at hv
        cases hv

/-- Number of object identities below `N` not yet seen. -/
def seenMeasure (isObj : Nat → Bool) (N : Nat) (seen : List Nat) : Nat :=
  ((Finset.range N).filter (fun x => isObj x = true ∧ x ∉ seen)).card

lemma seenMeasure_cons (isObj : Nat → Bool) (N n : Nat) (seen : List Nat)
    (h : isObj n = true) (hN : n < N) (hmem : n ∉ seen) :
    seenMeasure isObj N (n :: seen) + 1 = seenMeasure isObj N seen := by
  have hset : (Finset.range N).filter
      (fun x => isObj x = true ∧ x ∉ (n :: seen)) =
      ((Finset.range N).filter (fun x => isObj x = true ∧ x ∉ seen)).erase
        n := by
    ext x
    simp only [Finset.mem_filter, Finset.mem_erase, Finset.mem_range,
      List.mem_cons]
    constructor
    · rintro ⟨hx, hox, hnx⟩
      push_neg at hnx
      exact ⟨hnx.1, hx, hox, hnx.2⟩
    · rintro ⟨hne, hx, hox, hnx⟩
      refine ⟨hx, hox, ?_⟩
      push_neg
      exact ⟨hne, hnx⟩
  have hmem' : n ∈ (Finset.range N).filter
      (fun x => isObj x = true ∧ x ∉ seen) := by
    simp [Finset.mem_filter, Finset.mem_range, h, hN, hmem]
  unfold seenMeasure
  rw [hset, Finset.card_erase_of_mem hmem']
  exact Nat.sub_add_cancel (Finset.card_pos.mpr ⟨n, hmem'⟩)

lemma seenMeasure_anti (isObj : Nat → Bool) (N : Nat)
    (seen seen' : List Nat) (hsub : seen ⊆ seen') :
    seenMeasure isObj N seen' ≤ seenMeasure isObj N seen := by
  apply Finset.card_le_card
  intro x hx
  simp only [Finset.mem_filter, Finset.mem_range] at hx ⊢
  exact ⟨hx.1, hx.2.1, fun hm => hx.2.2 (hsub hm)⟩

/-- Termination: fuel exceeding the number of distinct unseen object
identities (bounded by any `N` above the reachable part) is never
exhausted. -/
lemma visit_no_fuelOut (heap : Nat → List Nat) (isObj : Nat → Bool)
    (N : Nat) :
    ∀ fuel,
      (∀ n seen, (∀ m, ReachStar heap isObj n m → m < N) →
        seenMeasure isObj N seen < fuel →
        visit heap isObj fuel n seen ≠ .fuelOut) ∧
      (∀ cs seen, (∀ c ∈ cs, ∀ m, ReachStar heap isObj c m → m < N) →
        seenMeasure isObj N seen < fuel →
        visitList heap isObj fuel cs seen ≠ .fuelOut) := by
  intro fuel
  induction fuel with
  | zero =>
    exact ⟨fun n seen _ hm => absurd hm (Nat.not_lt_zero _),
      fun cs seen _ hm => absurd hm (Nat.not_lt_zero _)⟩
  | succ fuel ih =>
    have hP : ∀ n seen, (∀ m, ReachStar heap isObj n m → m < N) →
        seenMeasure isObj N seen < fuel + 1 →
        visit heap isObj (fuel + 1) n seen ≠ .fuelOut := by
      intro n seen hb hm
      rw [visit_succ]
      by_cases ho : isObj n = true
      · rw [if_pos ho]
        by_cases hmem : n ∈ seen
        · rw [if_pos hmem]
          intro h
          cases h
        · rw [if_neg hmem]
          apply ih.2 (heap n) (n :: seen)
          · intro c hc m hr
            refine hb m (ReachStar.step ?_ hr)
            unfold children
            rwa [if_pos ho]
          · have hN : n < N := hb n (ReachStar.refl n)
            have hc := seenMeasure_cons isObj N n seen ho hN hmem
            omega
      · rw [if_neg ho]
        intro h
        cases h
    refine ⟨hP, ?_⟩
    intro cs
    induction cs with
    | nil =>
      intro seen _ _
      rw [visitList_nil]
      intro h
      cases h
    | cons c cs ihc =>
      intro seen hb hm
      rw [visitList_cons]
      cases hcv : visit heap isObj (fuel + 1) c seen with
      | ok s1 =>
        apply ihc s1 (fun c' hc' => hb c' (List.mem_cons_of_mem c hc'))
        have hsub : seen ⊆ s1 :=
          (visit_mono heap isObj (fuel + 1)).1 c seen s1 hcv
        exact lt_of_le_of_lt (seenMeasure_anti isObj N seen s1 hsub) hm
      | circular =>
        intro h
        cases h
      | fuelOut =>
        exact absurd hcv
          (hP c seen (hb c (List.mem_cons_self c cs)) hm)

/-- **C9 (amended).** The circular-reference check of
`DataSanitizer.validateAndSanitize` terminates on every finite structure
(fuel beyond a bound on the reachable identities is never exhausted),
throws the "Circular reference detected" error on every structure whose
reachable part contains a reference cycle, and accepts only acyclic
structures — but not all of them: because the visited-set is never unwound,
a structure in which the same sub-object is reachable along two different
paths is also rejected (see the counterexample). -/
theorem validateNoCircularReferences_cycle_guard (heap : Nat → List Nat)
    (isObj : Nat → Bool) (N fuel root : Nat)
    (hbound : ∀ m, ReachStar heap isObj root m → m < N)
    (hfuel : N < fuel) :
    validateNoCircularReferences heap isObj fuel root ≠ .fuelOut ∧
    ((∃ m, ReachStar heap isObj root m ∧ ReachPlus heap isObj m m) →
      validateNoCircularReferences heap isObj fuel root = .circular) ∧
    (∀ s, validateNoCircularReferences heap isObj fuel root = .ok s →
      ¬ ∃ m, ReachStar heap isObj root m ∧ ReachPlus heap isObj m m) := by
  have hmeas : seenMeasure isObj N [] < fuel := by
    have h1 : seenMeasure isObj N [] ≤ N := by
      unfold seenMeasure
      calc ((Finset.range N).filter _).card
          ≤ (Finset.range N).card := Finset.card_filter_le _ _
        _ = N := Finset.card_range N
    omega
  have hterm : validateNoCircularReferences heap isObj fuel root
      ≠ .fuelOut :=
    (visit_no_fuelOut heap isObj N fuel).1 root [] hbound hmeas
  have hsound : ∀ s,
      validateNoCircularReferences heap isObj fuel root = .ok s →
      ¬ ∃ m, ReachStar heap isObj root m ∧ ReachPlus heap isObj m m := by
    intro s hres hcyc
    obtain ⟨m, hrm, hplus⟩ := hcyc
    have hm : isObj m = true := by
      obtain ⟨c, hc, _⟩ := hplus
      by_contra hno
      unfold children at hc
      rw [if_neg hno] at hc
      simp at hc
    exact ((visit_sound heap isObj fuel).1 root [] s hres m hm hrm).2 hplus
  refine ⟨hterm, ?_, hsound⟩
  intro hcyc
  cases hres : validateNoCircularReferences heap isObj fuel root with
  | ok s => exact absurd hcyc (hsound s hres)
  | circular => rfl
  | fuelOut => exact absurd hres hterm

/-- A two-node acyclic structure where node 1 is referenced twice by node 0
(in JS: `const shared = {}; const data = {a: shared, b: shared}`). -/
def exHeap : Nat → List Nat := fun n => if n = 0 then [1, 1] else []

/-- Nodes 0 and 1 are the objects of `exHeap`. -/
def exIsObj : Nat → Bool := fun n => decide (n ≤ 1)

/-- Counterexample to C9 as stated: on an *acyclic* structure in which the
same sub-object is reachable along two different paths, the check still
throws "Circular reference detected" — the visited-set is shared across
siblings and never unwound, so the second reference to node 1 is mistaken
for a cycle. -/
theorem validateNoCircularReferences_shared_counterexample :
    validateNoCircularReferences exHeap exIsObj 5 0 = .circular ∧
    ¬ ∃ m, ReachStar exHeap exIsObj 0 m ∧ ReachPlus exHeap exIsObj m m := by
  have hedge : ∀ n c, c ∈ children exHeap exIsObj n → n = 0 ∧ c = 1 := by
    intro n c hc
    by_cases hn : n = 0
    · subst hn
      simp [children, exHeap, exIsObj] at hc
      exact ⟨rfl, hc⟩
    · simp [children, exHeap, exIsObj, hn] at hc
  constructor
  · rfl
  · rintro ⟨m, hrm, c, hc, hcs⟩
    obtain ⟨rfl, rfl⟩ := hedge m c hc
    have h10 : ∀ a b, ReachStar exHeap exIsObj a b → a = 1 → b = 1 := by
      intro a b h
      induction h with
      | refl => exact id
      | step hc' _ ih =>
        intro h1
        exact absurd (hedge _ _ hc').1 (by rw [h1]; exact one_ne_zero)
    exact absurd (h10 1 0 hcs rfl) (by decide)

/-- A one-node structure with a self-reference
(in JS: `const a = {}; a.self = a`). -/
def cycHeap : Nat → List Nat := fun n => if n = 0 then [0] else []

/-- Node 0 is the only object of `cycHeap`. -/
def cycIsObj : Nat → Bool := fun n => decide (n = 0)

/-- Witness for C9's amended theorem: on the one-node self-referencing
structure the guard (with ample fuel) detects the cycle. -/
theorem validateNoCircularReferences_cycle_guard_witness :
    validateNoCircularReferences cycHeap cycIsObj 3 0 = .circular := by
  have hedge : ∀ n c, c ∈ children cycHeap cycIsObj n → n = 0 ∧ c = 0 := by
    intro n c hc
    by_cases hn : n = 0
    · subst hn
      simp [children, cycHeap, cycIsObj] at hc
      exact ⟨rfl, hc⟩
    · simp [children, cycHeap, cycIsObj, hn] at hc
  have hreach : ∀ a m, ReachStar cycHeap cycIsObj a m → a = 0 → m = 0 := by
    intro a m h
    induction h with
    | refl => exact id
    | step hc _ ih => exact fun _ => ih (hedge _ _ hc).2
  have hbound : ∀ m, ReachStar cycHeap cycIsObj 0 m → m < 1 := by
    intro m hm
    have := hreach 0 m hm rfl
    omega
  exact (validateNoCircularReferences_cycle_guard cycHeap cycIsObj 1 3 0
    hbound (by decide)).2.1
    ⟨0, .refl 0, 0, by decide, .refl 0⟩

end FirestoreAdapter
